import Mathlib

/-!
Verification of the opencmr DICOM-directory indexing core against its
natural-language specification.

The development shallowly embeds the Python sources

  * `src/modules/pycmr/dicom_ext.py`   (`read_dicom`)
  * `src/modules/pycmr/cmrdir.py`      (`CMRDir`)
  * `src/opencmr/pycmr/cmr_study.py`   (`CMRStudy`)
  * `src/opencmr/pycmr/dicom_dir.py`   (`DicomDir`)

as executable Lean definitions.  Python runtime values are modelled by the
untyped `PyVal` type; Python `dict`s are insertion-ordered association lists
(`alSet` updates in place, inserts at the end, exactly like CPython dicts);
fallible Python code (attribute access, `assert`, `dict[...]`) is modelled in
the `Except PyErr` monad.  The file system boundary is abstracted as a list of
`FileEntry` values: a full path together with the `pydicom.read_file(force=True)`
parse result for that path (the parser itself is an external collaborator in
the spec and is not part of the core).
-/

/-- Python exceptions that the embedded code can raise. -/
inductive PyErr where
  /-- `AttributeError` from `dcm.<Tag>` when the tag is missing. -/
  | attributeError : PyErr
  /-- `KeyError` from `d[k]` on a missing dict key. -/
  | keyError (k : String) : PyErr
  /-- `TypeError`, e.g. item assignment on a non-dict. -/
  | typeError : PyErr
  /-- `AssertionError` with the message of the failing `assert`
      (the empty string models `AssertionError(None)`). -/
  | assertionError (msg : String) : PyErr
deriving DecidableEq

/-- Untyped model of the Python runtime values that flow through the indexing
core.  `pbytes` carries the UTF-8 decoding of a `bytes` object;
`pmulti` models `pydicom.multival.MultiValue` whose elements are decimal
values (`DSfloat`), on which Python `float()` is numerically the identity,
so the elements are carried already as rationals; `pds` models a single
`pydicom.valuerep.DSfloat`.  Python `float` is modelled by `Rat`. -/
inductive PyVal where
  | pnone : PyVal
  | pstr (s : String) : PyVal
  | pint (n : Int) : PyVal
  | pfloat (x : Rat) : PyVal
  | pbytes (s : String) : PyVal
  | pmulti (xs : List Rat) : PyVal
  | pds (x : Rat) : PyVal
  | plist (xs : List PyVal) : PyVal
  | pdict (l : List (String × PyVal)) : PyVal

mutual

/-- Structural equality on `PyVal` (Python `==` restricted to same-type
operands; the embedded code only ever compares like with like). -/
def pyBeq : PyVal → PyVal → Bool
  | .pnone, .pnone => true
  | .pstr a, .pstr b => a == b
  | .pint a, .pint b => a == b
  | .pfloat a, .pfloat b => a == b
  | .pbytes a, .pbytes b => a == b
  | .pmulti a, .pmulti b => a == b
  | .pds a, .pds b => a == b
  | .plist a, .plist b => pyBeqList a b
  | .pdict a, .pdict b => pyBeqDict a b
  | _, _ => false

/-- Elementwise `pyBeq` on lists. -/
def pyBeqList : List PyVal → List PyVal → Bool
  | [], [] => true
  | x :: xs, y :: ys => pyBeq x y && pyBeqList xs ys
  | _, _ => false

/-- Entrywise `pyBeq` on dicts. -/
def pyBeqDict : List (String × PyVal) → List (String × PyVal) → Bool
  | [], [] => true
  | (k, v) :: xs, (k', v') :: ys => k == k' && pyBeq v v' && pyBeqDict xs ys
  | _, _ => false

end

/-- Lists that agree under `pyBeqList` are equal, given that the elements of
the first list are sound for `pyBeq`. -/
theorem pyBeqList_sound_of (xs : List PyVal)
    (ih : ∀ v ∈ xs, ∀ w, pyBeq v w = true → v = w) :
    ∀ ys, pyBeqList xs ys = true → xs = ys := by
  induction xs with
  | nil => intro ys h; cases ys with
      | nil => rfl
      | cons y ys => simp [pyBeqList] at h
  | cons x xs ihl =>
      intro ys h
      cases ys with
      | nil => simp [pyBeqList] at h
      | cons y ys =>
          simp only [pyBeqList, Bool.and_eq_true] at h
          have h1 := ih x (by simp) y h.1
          have h2 := ihl (fun v hv w => ih v (by simp [hv]) w) ys h.2
          rw [h1, h2]

/-- Dicts that agree under `pyBeqDict` are equal, given soundness for the
values of the first dict. -/
theorem pyBeqDict_sound_of (l : List (String × PyVal))
    (ih : ∀ kv ∈ l, ∀ w, pyBeq kv.2 w = true → kv.2 = w) :
    ∀ m, pyBeqDict l m = true → l = m := by
  induction l with
  | nil => intro m h; cases m with
      | nil => rfl
      | cons y m => obtain ⟨k, v⟩ := y; simp [pyBeqDict] at h
  | cons kv l ihl =>
      intro m h
      obtain ⟨k, v⟩ := kv
      cases m with
      | nil => simp [pyBeqDict] at h
      | cons kw m =>
          obtain ⟨k', v'⟩ := kw
          simp only [pyBeqDict, Bool.and_eq_true] at h
          have h1 := ih (k, v) (by simp) v' h.1.2
          have h2 := ihl (fun kv hkv w => ih kv (by simp [hkv]) w) m h.2
          have h3 : k = k' := by
            have := h.1.1; simpa using this
          simp only at h1
          rw [h1, h2, h3]

/-- Soundness of `pyBeq`: values that test equal are equal. -/
theorem pyBeq_sound : ∀ (a b : PyVal), pyBeq a b = true → a = b
  | .pnone, b => by cases b <;> simp [pyBeq]
  | .pstr s, b => by cases b <;> simp [pyBeq]
  | .pint n, b => by cases b <;> simp [pyBeq]
  | .pfloat x, b => by cases b <;> simp [pyBeq]
  | .pbytes s, b => by cases b <;> simp [pyBeq]
  | .pmulti xs, b => by cases b <;> simp [pyBeq]
  | .pds x, b => by cases b <;> simp [pyBeq]
  | .plist xs, b => by
      cases b <;>
        first
          | (simp [pyBeq]; done)
          | (intro h
             simp only [pyBeq] at h
             exact congrArg PyVal.plist
               (pyBeqList_sound_of xs (fun v hv w => pyBeq_sound v w) _ h))
  | .pdict l, b => by
      cases b <;>
        first
          | (simp [pyBeq]; done)
          | (intro h
             simp only [pyBeq] at h
             exact congrArg PyVal.pdict
               (pyBeqDict_sound_of l (fun kv hkv w => pyBeq_sound kv.2 w) _ h))
termination_by a _ => sizeOf a
decreasing_by
  · have hlt := List.sizeOf_lt_of_mem hv
    simp only [PyVal.plist.sizeOf_spec]
    omega
  · have hlt := List.sizeOf_lt_of_mem hkv
    have hle : sizeOf kv.2 ≤ sizeOf kv := by
      obtain ⟨k, v⟩ := kv
      simp only [Prod.mk.sizeOf_spec]
      omega
    simp only [PyVal.pdict.sizeOf_spec]
    omega

/-- Reflexivity of `pyBeqList`, given reflexivity of the elements. -/
theorem pyBeqList_refl_of (xs : List PyVal)
    (ih : ∀ v ∈ xs, pyBeq v v = true) : pyBeqList xs xs = true := by
  induction xs with
  | nil => rfl
  | cons x xs ihl =>
      simp only [pyBeqList, Bool.and_eq_true]
      exact ⟨ih x (by simp), ihl (fun v hv => ih v (by simp [hv]))⟩

/-- Reflexivity of `pyBeqDict`, given reflexivity of the values. -/
theorem pyBeqDict_refl_of (l : List (String × PyVal))
    (ih : ∀ kv ∈ l, pyBeq kv.2 kv.2 = true) : pyBeqDict l l = true := by
  induction l with
  | nil => rfl
  | cons kv l ihl =>
      obtain ⟨k, v⟩ := kv
      simp only [pyBeqDict, Bool.and_eq_true]
      refine ⟨⟨by simp, ih (k, v) (by simp)⟩, ihl (fun kv hkv => ih kv (by simp [hkv]))⟩

/-- Reflexivity of `pyBeq`. -/
theorem pyBeq_refl : ∀ (a : PyVal), pyBeq a a = true
  | .pnone => rfl
  | .pstr s => by simp [pyBeq]
  | .pint n => by simp [pyBeq]
  | .pfloat x => by simp [pyBeq]
  | .pbytes s => by simp [pyBeq]
  | .pmulti xs => by simp [pyBeq]
  | .pds x => by simp [pyBeq]
  | .plist xs => pyBeqList_refl_of xs (fun v hv => pyBeq_refl v)
  | .pdict l => pyBeqDict_refl_of l (fun kv hkv => pyBeq_refl kv.2)
termination_by a => sizeOf a
decreasing_by
  · have hlt := List.sizeOf_lt_of_mem hv
    simp only [PyVal.plist.sizeOf_spec]
    omega
  · have hlt := List.sizeOf_lt_of_mem hkv
    have hle : sizeOf kv.2 ≤ sizeOf kv := by
      obtain ⟨k, v⟩ := kv
      simp only [Prod.mk.sizeOf_spec]
      omega
    simp only [PyVal.pdict.sizeOf_spec]
    omega

instance : DecidableEq PyVal := fun a b =>
  if h : pyBeq a b = true then .isTrue (pyBeq_sound a b h)
  else .isFalse (fun he => h (he ▸ pyBeq_refl a))

/-- Logical JSON values, the target of `json.dump` / source of `json.load`.
`jint` and `jnum` are kept distinct because Python's `json` module writes
`int` and `float` values differently and reads them back as distinct types. -/
inductive JVal where
  | jnull : JVal
  | jstr (s : String) : JVal
  | jint (n : Int) : JVal
  | jnum (x : Rat) : JVal
  | jarr (xs : List JVal) : JVal
  | jobj (l : List (String × JVal)) : JVal

/-- Lookup in an insertion-ordered association list (Python `d[k]` read). -/
def alGet : List (String × PyVal) → String → Option PyVal
  | [], _ => none
  | (k', v) :: rest, k => if k' = k then some v else alGet rest k

/-- Lookup with a default value. -/
def alGetD (l : List (String × PyVal)) (k : String) (d : PyVal) : PyVal :=
  (alGet l k).getD d

/-- Python dict write `d[k] = v`: update in place if the key exists
(keeping its position), otherwise append at the end. -/
def alSet : List (String × PyVal) → String → PyVal → List (String × PyVal)
  | [], k, v => [(k, v)]
  | (k', v') :: rest, k, v =>
      if k' = k then (k, v) :: rest else (k', v') :: alSet rest k v

/-- Python `k in d` membership test on a dict. -/
def alMem (l : List (String × PyVal)) (k : String) : Bool :=
  (alGet l k).isSome

/-- Python `d[k]` on an arbitrary value: `KeyError` on a missing key,
`TypeError` when the value is not a dict. -/
def pdGet (d : PyVal) (k : String) : Except PyErr PyVal :=
  match d with
  | .pdict l =>
      match alGet l k with
      | some v => .ok v
      | none => .error (.keyError k)
  | _ => .error .typeError

/-- Python `d[k] = v` on an arbitrary value (persistent style: returns the
updated dict). -/
def pdSet (d : PyVal) (k : String) (v : PyVal) : Except PyErr PyVal :=
  match d with
  | .pdict l => .ok (.pdict (alSet l k v))
  | _ => .error .typeError

/-- Python `k in d` on an arbitrary value. -/
def pdMem (d : PyVal) (k : String) : Except PyErr Bool :=
  match d with
  | .pdict l => .ok (alMem l k)
  | _ => .error .typeError

/-- Keys of a dict, in insertion order (Python `d.keys()`). -/
def pdKeys (d : PyVal) : Except PyErr (List String) :=
  match d with
  | .pdict l => .ok (l.map Prod.fst)
  | _ => .error .typeError

/-- Python `len(d)` for a dict. -/
def pdLen (d : PyVal) : Except PyErr Nat :=
  match d with
  | .pdict l => .ok l.length
  | _ => .error .typeError

/-- Python `str.replace(pat, "")` on character lists: delete every
non-overlapping occurrence of `pat`, scanning left to right.  The fuel
argument (instantiated with the length of the scanned list, which bounds
the number of recursion steps) makes the recursion structural.  The
embedded code only ever calls it with a non-empty pattern; for the empty
pattern this model leaves the string unchanged. -/
def replaceAllAux (pat : List Char) : Nat → List Char → List Char
  | _, [] => []
  | 0, l => l
  | fuel + 1, c :: rest =>
      if pat ≠ [] ∧ pat.isPrefixOf (c :: rest) then
        replaceAllAux pat fuel ((c :: rest).drop pat.length)
      else
        c :: replaceAllAux pat fuel rest

/-- Python `s.replace(pat, "")` on strings. -/
def pyReplace (s pat : String) : String :=
  ⟨replaceAllAux pat.data s.data.length s.data⟩

/-- Python `os.path.join(folder, "")`: append a path separator unless the
folder already ends with one. -/
def joinEmpty (folder : String) : String :=
  if folder.data.getLast? = some '/' then folder else folder ++ "/"

/-- Python `str.split(sep)` for a single-character separator: split at every
occurrence of `sep`; adjacent separators and separators at either end
produce empty components, exactly as in Python. -/
def pySplitChar (sep : Char) : List Char → List String
  | [] => [""]
  | c :: rest =>
      if c = sep then "" :: pySplitChar sep rest
      else
        match pySplitChar sep rest with
        | [] => [String.mk [c]]
        | s :: ss => String.mk (c :: s.data) :: ss

/-- Python `os.path.basename` (POSIX): everything after the last separator. -/
def pyBasename (p : String) : String :=
  (pySplitChar '/' p.data).getLastD ""

/-- Model of a `pydicom.dataset.FileDataset`: the file-meta header and the
main data set, each a mapping from keyword to value.  `len(dcm)` in Python
counts the elements of the main data set only. -/
structure Dataset where
  fileMeta : List (String × PyVal)
  elems : List (String × PyVal)
deriving DecidableEq

/-- Value of a data-set attribute, `none` when the keyword is absent
(`hasattr(dcm, t)` false). -/
def Dataset.attr (d : Dataset) (t : String) : Option PyVal :=
  alGet d.elems t

/-- Python `getattr(dcm, t) if hasattr(dcm, t) else None`. -/
def Dataset.attrOrNone (d : Dataset) (t : String) : PyVal :=
  (alGet d.elems t).getD .pnone

/-- Python attribute access `dcm.<t>` where the value is used as a dict key,
e.g. `dcm.StudyInstanceUID`.  A missing keyword raises `AttributeError`.
UID-valued attributes are strings in DICOM; a non-string value cannot be a
key of the (string-keyed) dict model, which we record as a `TypeError`. -/
def Dataset.uidAttr (d : Dataset) (t : String) : Except PyErr String :=
  match alGet d.elems t with
  | none => .error .attributeError
  | some (.pstr s) => .ok s
  | some _ => .error .typeError

/-- Python attribute access `dcm.<t>` whose value is only printed
(e.g. `dcm.StudyDescription` inside a verbose `print`): the access itself
raises `AttributeError` when the keyword is missing. -/
def Dataset.attrEx (d : Dataset) (t : String) : Except PyErr PyVal :=
  match alGet d.elems t with
  | none => .error .attributeError
  | some v => .ok v

/-- A file visited by the directory walk: the full path produced by
`os.path.join(root, f)` under `os.walk`, and the result of
`pydicom.read_file(path, force=True)` (with `force=True` the parser always
yields a data set; parsing itself is the external collaborator). -/
structure FileEntry where
  path : String
  parsed : Dataset
deriving DecidableEq

/-- The UID string of `pydicom.uid.ImplicitVRLittleEndian`. -/
def implicitVRLittleEndian : PyVal := .pstr "1.2.840.10008.1.2"

/-- Embedding of `read_dicom` (src/modules/pycmr/dicom_ext.py):
read the file with `force=True`; if `TransferSyntaxUID` is missing from the
file meta, set it to the implicit-little-endian default; if the data set has
at most one element (`len(dcm) <= 1`), return `None`. -/
def read_dicom (dcm : Dataset) : Option Dataset :=
  let dcm :=
    if alMem dcm.fileMeta "TransferSyntaxUID" then dcm
    else { dcm with fileMeta := alSet dcm.fileMeta "TransferSyntaxUID" implicitVRLittleEndian }
  if dcm.elems.length ≤ 1 then none else some dcm

/-- Embedding of `CMRDir.get_tag` / `CMRStudy.get_tag` (the two methods are
textually identical): safely read a tag value, returning `None` when the tag
is absent; a `bytes` value is decoded and split on the backslash separator;
a `MultiValue` is converted to a list of floats; a `DSfloat` is converted to
a float; every other value passes through unchanged. -/
def get_tag (dcm : Dataset) (tagName : String) : PyVal :=
  match alGet dcm.elems tagName with
  | none => .pnone
  | some val =>
      match val with
      | .pbytes s => .plist ((pySplitChar '\\' s.data).map .pstr)
      | .pmulti xs => .plist (xs.map .pfloat)
      | .pds x => .pfloat x
      | v => v

/-- Lookup in a JSON object, mirroring `alGet`. -/
def alGetJ : List (String × JVal) → String → Option JVal
  | [], _ => none
  | (k', v) :: rest, k => if k' = k then some v else alGetJ rest k

mutual

/-- Logical model of `json.dump` value encoding: `None`/`str`/`int`/`float`
and (nested) lists and dicts are serializable; a raw `bytes` or `MultiValue`
object raises `TypeError` in `json.dump`, modelled as `none`.  A raw
`DSfloat` never reaches a catalog (`get_tag` normalizes it first) and is
also treated as outside the serialization model. -/
def encodeJ : PyVal → Option JVal
  | .pnone => some .jnull
  | .pstr s => some (.jstr s)
  | .pint n => some (.jint n)
  | .pfloat x => some (.jnum x)
  | .pbytes _ => none
  | .pmulti _ => none
  | .pds _ => none
  | .plist xs => (encodeJList xs).map .jarr
  | .pdict l => (encodeJDict l).map .jobj

/-- Elementwise encoding of a list. -/
def encodeJList : List PyVal → Option (List JVal)
  | [] => some []
  | v :: vs =>
      match encodeJ v, encodeJList vs with
      | some j, some js => some (j :: js)
      | _, _ => none

/-- Entrywise encoding of a dict. -/
def encodeJDict : List (String × PyVal) → Option (List (String × JVal))
  | [] => some []
  | (k, v) :: rest =>
      match encodeJ v, encodeJDict rest with
      | some j, some js => some ((k, j) :: js)
      | _, _ => none

end

mutual

/-- Logical model of `json.load` value materialization: `null` becomes
`None`, JSON numbers become `int`/`float`, arrays become lists, objects
become dicts. -/
def decodeJ : JVal → PyVal
  | .jnull => .pnone
  | .jstr s => .pstr s
  | .jint n => .pint n
  | .jnum x => .pfloat x
  | .jarr xs => .plist (decodeJList xs)
  | .jobj l => .pdict (decodeJDict l)

/-- Elementwise decoding of a JSON array. -/
def decodeJList : List JVal → List PyVal
  | [] => []
  | j :: js => decodeJ j :: decodeJList js

/-- Entrywise decoding of a JSON object. -/
def decodeJDict : List (String × JVal) → List (String × PyVal)
  | [] => []
  | (k, j) :: rest => (k, decodeJ j) :: decodeJDict rest

end

/-- Round trip for lists, given the round trip for their elements. -/
theorem decodeJList_encodeJList_of (xs : List PyVal)
    (ih : ∀ v ∈ xs, ∀ j, encodeJ v = some j → decodeJ j = v) :
    ∀ js, encodeJList xs = some js → decodeJList js = xs := by
  induction xs with
  | nil =>
      intro js h
      simp only [encodeJList] at h
      cases h
      rfl
  | cons v vs ihl =>
      intro js h
      simp only [encodeJList] at h
      cases hv : encodeJ v with
      | none => rw [hv] at h; cases h
      | some j =>
          cases hvs : encodeJList vs with
          | none => rw [hv, hvs] at h; cases h
          | some js' =>
              rw [hv, hvs] at h
              cases h
              simp only [decodeJList]
              rw [ih v (by simp) j hv,
                  ihl (fun w hw => ih w (by simp [hw])) js' hvs]

/-- Round trip for dicts, given the round trip for their values. -/
theorem decodeJDict_encodeJDict_of (l : List (String × PyVal))
    (ih : ∀ kv ∈ l, ∀ j, encodeJ kv.2 = some j → decodeJ j = kv.2) :
    ∀ m, encodeJDict l = some m → decodeJDict m = l := by
  induction l with
  | nil =>
      intro m h
      simp only [encodeJDict] at h
      cases h
      rfl
  | cons kv l ihl =>
      intro m h
      obtain ⟨k, v⟩ := kv
      simp only [encodeJDict] at h
      cases hv : encodeJ v with
      | none => rw [hv] at h; cases h
      | some j =>
          cases hl : encodeJDict l with
          | none => rw [hv, hl] at h; cases h
          | some m' =>
              rw [hv, hl] at h
              cases h
              simp only [decodeJDict]
              rw [ih (k, v) (by simp) j hv,
                  ihl (fun kw hkw => ih kw (by simp [hkw])) m' hl]

/-- The save/load round trip is the identity on every serializable value:
materializing an encoded value restores it exactly. -/
theorem decodeJ_encodeJ : ∀ (v : PyVal) (j : JVal), encodeJ v = some j → decodeJ j = v
  | .pnone, j => by intro h; cases h; rfl
  | .pstr s, j => by intro h; cases h; rfl
  | .pint n, j => by intro h; cases h; rfl
  | .pfloat x, j => by intro h; cases h; rfl
  | .pbytes s, j => by intro h; cases h
  | .pmulti xs, j => by intro h; cases h
  | .pds x, j => by intro h; cases h
  | .plist xs, j => by
      intro h
      simp only [encodeJ] at h
      cases hxs : encodeJList xs with
      | none => rw [hxs] at h; cases h
      | some js =>
          rw [hxs] at h
          cases h
          simp only [decodeJ]
          rw [decodeJList_encodeJList_of xs (fun v hv jj => decodeJ_encodeJ v jj) js hxs]
  | .pdict l, j => by
      intro h
      simp only [encodeJ] at h
      cases hl : encodeJDict l with
      | none => rw [hl] at h; cases h
      | some m =>
          rw [hl] at h
          cases h
          simp only [decodeJ]
          rw [decodeJDict_encodeJDict_of l (fun kv hkv jj => decodeJ_encodeJ kv.2 jj) m hl]
termination_by v _ => sizeOf v
decreasing_by
  · have hlt := List.sizeOf_lt_of_mem hv
    simp only [PyVal.plist.sizeOf_spec]
    omega
  · have hlt := List.sizeOf_lt_of_mem hkv
    have hle : sizeOf kv.2 ≤ sizeOf kv := by
      obtain ⟨k, v⟩ := kv
      simp only [Prod.mk.sizeOf_spec]
      omega
    simp only [PyVal.pdict.sizeOf_spec]
    omega

/-- Embedding of the `CMRDir` object (src/modules/pycmr/cmrdir.py): the
constructor sets `source = ""`, `studyName` to the given name (or `None`)
and `dicomDir = dict()`.  All three attributes hold plain Python values. -/
structure CMRDir where
  source : PyVal
  studyName : PyVal
  dicomDir : PyVal
deriving DecidableEq

/-- `CMRDir.STUDY_TAGS`. -/
def CMRDir.STUDY_TAGS : List String :=
  ["StudyInstanceUID", "StudyDescription", "StudyDate", "StudyTime",
   "PatientID", "Manufacturer"]

/-- `CMRDir.SERIES_TAGS`. -/
def CMRDir.SERIES_TAGS : List String :=
  ["SeriesInstanceUID", "SeriesDescription", "ProtocolName", "SequenceName"]

/-- `CMRDir.INSTANCE_TAGS`. -/
def CMRDir.INSTANCE_TAGS : List String :=
  ["SOPInstanceUID", "AcquisitionTime", "Rows", "Columns", "TriggerTime",
   "SliceLocation", "SliceThickness", "PixelRepresentation", "PixelSpacing",
   "ImageOrientation", "ImageOrientationPatient", "ImagePosition",
   "ImagePositionPatient"]

/-- Per-file body of the `for f in allFiles` loop of `CMRDir.from_folder`:
read the file as DICOM (skip it when not recognized), create the study dict
on first sight of its `StudyInstanceUID`, create the series dict on first
sight of its `SeriesInstanceUID` inside the study dict, then assign the new
instance dict (instance tags plus `Filename`) under the file's
`SOPInstanceUID` — a plain dict assignment, with no duplicate check.
The body is split into three stage definitions (`processFile` →
`processRest` → `processTail`), cut at the two `if ... not in` insertion
points; their composition is the loop body. -/
def CMRDir.processTail (dicomFolder : String) (D : CMRDir) (fe : FileEntry)
    (dcm : Dataset) (studyIUID seriesIUID : String) (dd : PyVal) :
    Except PyErr CMRDir := do
  let newInstance := PyVal.pdict
    (CMRDir.INSTANCE_TAGS.map (fun s => (s, get_tag dcm s)) ++
     [("Filename", .pstr (pyReplace fe.path (joinEmpty dicomFolder)))])
  let sopIUID ← dcm.uidAttr "SOPInstanceUID"
  let studyDict2 ← pdGet dd studyIUID
  let seriesDict ← pdGet studyDict2 seriesIUID
  let seriesDict' ← pdSet seriesDict sopIUID newInstance
  let studyDict3 ← pdSet studyDict2 seriesIUID seriesDict'
  let ddF ← pdSet dd studyIUID studyDict3
  .ok { D with dicomDir := ddF }

def CMRDir.processRest (dicomFolder : String) (D : CMRDir) (fe : FileEntry)
    (dcm : Dataset) (studyIUID : String) (dd : PyVal) :
    Except PyErr CMRDir := do
  let seriesIUID ← dcm.uidAttr "SeriesInstanceUID"
  let studyDict ← pdGet dd studyIUID
  let memSe ← pdMem studyDict seriesIUID
  if memSe then CMRDir.processTail dicomFolder D fe dcm studyIUID seriesIUID dd
  else do
    let studyDict' ← pdSet studyDict seriesIUID
      (.pdict (CMRDir.SERIES_TAGS.map (fun s => (s, get_tag dcm s))))
    let dd' ← pdSet dd studyIUID studyDict'
    CMRDir.processTail dicomFolder D fe dcm studyIUID seriesIUID dd'

def CMRDir.processFile (dicomFolder : String) (D : CMRDir) (fe : FileEntry) :
    Except PyErr CMRDir :=
  match read_dicom fe.parsed with
  | none => .ok D
  | some dcm => do
      let studyIUID ← dcm.uidAttr "StudyInstanceUID"
      let dd := D.dicomDir
      let mem ← pdMem dd studyIUID
      if mem then CMRDir.processRest dicomFolder D fe dcm studyIUID dd
      else do
        let dd' ← pdSet dd studyIUID
          (.pdict (CMRDir.STUDY_TAGS.map (fun s => (s, get_tag dcm s))))
        CMRDir.processRest dicomFolder D fe dcm studyIUID dd'

/-- Embedding of `CMRDir.from_folder`: build the initial object (study name
from the argument or the folder's basename, `source` set to the folder) and
fold the per-file loop body over all files found under the folder.  The
`quiet` flag only controls printing and has no effect on the result. -/
def CMRDir.from_folder (dicomFolder : String) (studyName : Option String)
    (quiet : Bool) (files : List FileEntry) : Except PyErr CMRDir :=
  let D : CMRDir :=
    { source := .pstr dicomFolder,
      studyName := .pstr (studyName.getD (pyBasename dicomFolder)),
      dicomDir := .pdict [] }
  files.foldlM (CMRDir.processFile dicomFolder) D

/-- `CMRDir.is_empty`: `len(self.dicomDir) == 0`. -/
def CMRDir.is_empty (D : CMRDir) : Except PyErr Bool :=
  (pdLen D.dicomDir).map (· == 0)

/-- `CMRDir.get_study_uids`: `list(self.dicomDir.keys())`. -/
def CMRDir.get_study_uids (D : CMRDir) : Except PyErr (List String) :=
  pdKeys D.dicomDir

/-- `CMRDir.get_series_uids`: the keys of the study dict minus the
study-level tag names.  Python materializes a set difference in arbitrary
order; the model keeps insertion order. -/
def CMRDir.get_series_uids (D : CMRDir) (studyUID : String) :
    Except PyErr (List String) := do
  let sd ← pdGet D.dicomDir studyUID
  let ks ← pdKeys sd
  pure (ks.filter (fun k => !(CMRDir.STUDY_TAGS.contains k)))

/-- `CMRDir.get_sop_uids`: the keys of the series dict minus the
series-level tag names (set difference, modelled in insertion order). -/
def CMRDir.get_sop_uids (D : CMRDir) (studyUID seriesUID : String) :
    Except PyErr (List String) := do
  let sd ← pdGet D.dicomDir studyUID
  let sed ← pdGet sd seriesUID
  let ks ← pdKeys sed
  pure (ks.filter (fun k => !(CMRDir.SERIES_TAGS.contains k)))

/-- Embedding of `CMRDir.get_filenames`: collect
`self.dicomDir[studyUID][seriesUID][s]['Filename']` over the SOP UIDs of
the series; the body returns the same `files` list whether `frame` is
`None` or not (the frame branch is not implemented in the source). -/
def CMRDir.get_filenames (D : CMRDir) (studyUID seriesUID : String)
    (frame : Option PyVal) : Except PyErr (List PyVal) := do
  let sops ← D.get_sop_uids studyUID seriesUID
  let files ← sops.mapM (fun s => do
    let sd ← pdGet D.dicomDir studyUID
    let sed ← pdGet sd seriesUID
    let inst ← pdGet sed s
    pdGet inst "Filename")
  match frame with
  | none => pure files
  | some _ => pure files

/-- `CMRDir.get_patient_id`: with no argument, use the first study key in
discovery order and return `None` when there are no studies; otherwise
read `self.dicomDir[studyUID]['PatientID']`. -/
def CMRDir.get_patient_id (D : CMRDir) (studyUID : Option String) :
    Except PyErr PyVal :=
  match studyUID with
  | some su => do
      let sd ← pdGet D.dicomDir su
      pdGet sd "PatientID"
  | none =>
      match D.dicomDir with
      | .pdict l =>
          match l.map Prod.fst with
          | [] => .ok .pnone
          | su :: _ => do
              let sd ← pdGet D.dicomDir su
              pdGet sd "PatientID"
      | _ => .error .typeError

/-- Embedding of `CMRDir.save`: `json.dump` of the object dict
`{source, studyName, dicomDir}`; `none` models the `TypeError` that
`json.dump` raises on a non-serializable value. -/
def CMRDir.save (D : CMRDir) : Option JVal :=
  match encodeJ D.source, encodeJ D.studyName, encodeJ D.dicomDir with
  | some s, some n, some d =>
      some (.jobj [("source", s), ("studyName", n), ("dicomDir", d)])
  | _, _, _ => none

/-- Embedding of `CMRDir.from_file`: `json.load` the snapshot and assign
`studyName`, `source` and `dicomDir` from the loaded dict (`KeyError` when
a field is missing, `TypeError` when the snapshot is not an object). -/
def CMRDir.from_file (j : JVal) : Except PyErr CMRDir :=
  match j with
  | .jobj l => do
      let n ← match alGetJ l "studyName" with
        | some v => pure v
        | none => throw (.keyError "studyName")
      let s ← match alGetJ l "source" with
        | some v => pure v
        | none => throw (.keyError "source")
      let d ← match alGetJ l "dicomDir" with
        | some v => pure v
        | none => throw (.keyError "dicomDir")
      pure { source := decodeJ s, studyName := decodeJ n, dicomDir := decodeJ d }
  | _ => .error .typeError

/-- Embedding of the `CMRStudy` object (src/opencmr/pycmr/cmr_study.py). -/
structure CMRStudy where
  source : PyVal
  study_instance_uid : PyVal
  dcmdir : PyVal
deriving DecidableEq

/-- `CMRStudy.STUDY_TAGS`. -/
def CMRStudy.STUDY_TAGS : List String :=
  ["StudyInstanceUID", "StudyDescription", "StudyDate", "StudyTime",
   "PatientID", "Manufacturer"]

/-- `CMRStudy.SERIES_TAGS`. -/
def CMRStudy.SERIES_TAGS : List String :=
  ["SeriesDescription", "ProtocolName", "SequenceName"]

/-- `CMRStudy.INSTANCE_TAGS`. -/
def CMRStudy.INSTANCE_TAGS : List String :=
  ["AcquisitionTime", "Rows", "Columns", "TriggerTime", "SliceLocation",
   "SliceThickness", "PixelRepresentation", "PixelSpacing",
   "ImageOrientation", "ImageOrientationPatient", "ImagePosition",
   "ImagePositionPatient"]

/-- Message of the assert at cmr_study.py line 105. -/
def multipleStudiesMsg : String :=
  "Found 2 StudyInstanceUID. The folder must contain 1 study."

/-- Message of the assert at cmr_study.py line 117. -/
def duplicateInstanceMsg : String :=
  "Duplicate SOPInstanceUID is found!!"

/-- Per-file body of the `for f in all_files` loop of `CMRStudy.from_folder`.
The fold state is the pair `(study_iuid, dd)`: `none` models
`study_iuid = None` together with the still-empty `dd = dict()`.  On the
first recognized file the study tags and an empty `Series` dict are stored;
every recognized file is checked by
`assert study_iuid == dcm.StudyInstanceUID`; a repeated `SOPInstanceUID`
inside one series fails the assert at line 117.  In verbose mode the
`print` calls evaluate `dcm.StudyDescription` / `dcm.SeriesDescription`,
which raises `AttributeError` when the keyword is absent. -/
def CMRStudy.processTail (folder_name : String) (fe : FileEntry)
    (dcm : Dataset) (study_iuid series_iuid : String) (dd : PyVal) :
    Except PyErr (Option (String × PyVal)) := do
  let sop_iuid ← dcm.uidAttr "SOPInstanceUID"
  let seriesMap2 ← pdGet dd "Series"
  let seriesDict ← pdGet seriesMap2 series_iuid
  let instances ← pdGet seriesDict "Instances"
  let memSop ← pdMem instances sop_iuid
  if memSop then
    throw (.assertionError duplicateInstanceMsg)
  let newInstance := PyVal.pdict
    ((CMRStudy.INSTANCE_TAGS.map (fun t => (t, get_tag dcm t))) ++
     [("Filename", .pstr (pyReplace fe.path (joinEmpty folder_name)))])
  let sop2 ← dcm.uidAttr "SOPInstanceUID"
  let instances' ← pdSet instances sop2 newInstance
  let seriesDict' ← pdSet seriesDict "Instances" instances'
  let seriesMap' ← pdSet seriesMap2 series_iuid seriesDict'
  let dd ← pdSet dd "Series" seriesMap'
  pure (some (study_iuid, dd))

def CMRStudy.processRest (folder_name : String) (verbose : Bool)
    (fe : FileEntry) (dcm : Dataset) (study_iuid : String) (dd : PyVal) :
    Except PyErr (Option (String × PyVal)) := do
  let series_iuid ← dcm.uidAttr "SeriesInstanceUID"
  let seriesMap ← pdGet dd "Series"
  let memSe ← pdMem seriesMap series_iuid
  let dd ← if memSe then pure dd else do
    let newSeries := PyVal.pdict
      ((CMRStudy.SERIES_TAGS.map (fun t => (t, get_tag dcm t))) ++
       [("Instances", .pdict [])])
    let seriesMap' ← pdSet seriesMap series_iuid newSeries
    let dd' ← pdSet dd "Series" seriesMap'
    if verbose then
      let _ ← dcm.attrEx "SeriesDescription"
      pure dd'
    else
      pure dd'
  CMRStudy.processTail folder_name fe dcm study_iuid series_iuid dd

def CMRStudy.processFile (folder_name : String) (verbose : Bool)
    (st : Option (String × PyVal)) (fe : FileEntry) :
    Except PyErr (Option (String × PyVal)) :=
  match read_dicom fe.parsed with
  | none => .ok st
  | some dcm => do
      let (study_iuid, dd) ←
        match st with
        | some p => pure p
        | none => do
            let u ← dcm.uidAttr "StudyInstanceUID"
            if verbose then
              let _ ← dcm.attrEx "StudyDescription"
            let dd := PyVal.pdict
              ((CMRStudy.STUDY_TAGS.map (fun t => (t, get_tag dcm t))) ++
               [("Series", .pdict [])])
            pure (u, dd)
      let u' ← dcm.uidAttr "StudyInstanceUID"
      if u' ≠ study_iuid then
        throw (.assertionError multipleStudiesMsg)
      CMRStudy.processRest folder_name verbose fe dcm study_iuid dd

/-- Embedding of `CMRStudy.from_folder`: fold the per-file loop over all
files of the folder and build
`cls(_source=folder_name, _study_instance_uid=study_iuid, _dcmdir=dd)`.
`dcmdir` is the empty dict when no file was recognized. -/
def CMRStudy.from_folder (folder_name : String) (verbose : Bool)
    (files : List FileEntry) : Except PyErr CMRStudy := do
  let st ← files.foldlM (CMRStudy.processFile folder_name verbose) none
  match st with
  | none =>
      pure { source := .pstr folder_name, study_instance_uid := .pnone,
             dcmdir := .pdict [] }
  | some (u, dd) =>
      pure { source := .pstr folder_name, study_instance_uid := .pstr u,
             dcmdir := dd }

/-- `CMRStudy.is_empty`: `len(self.dcmdir) == 0`. -/
def CMRStudy.is_empty (S : CMRStudy) : Except PyErr Bool :=
  (pdLen S.dcmdir).map (· == 0)

/-- Result type of `CMRStudy.from_file`: the Python function can in
principle return either the `CMRStudy` class object itself or an instance
restored from a snapshot. -/
inductive CMRStudyFromFile where
  | classObject : CMRStudyFromFile
  | restored (s : CMRStudy) : CMRStudyFromFile
deriving DecidableEq

/-- Embedding of `CMRStudy.from_file` (cmr_study.py lines 128-132): the body
is `dd = cls; return dd` — it returns the class object itself and performs
no file access at all.  The model therefore takes the whole file system
(a mapping from file names to parsed JSON) as an argument and ignores it. -/
def CMRStudy.from_file (fileSystem : List (String × JVal)) (file_name : String) :
    CMRStudyFromFile :=
  .classObject

/-- One series entry of a scanned `DicomDir`: the dict of series-level tags
and the list of image dicts (`Filename` plus the image-level tags). -/
structure DSeries where
  tags : List (String × PyVal)
  images : List (List (String × PyVal))
deriving DecidableEq

/-- Embedding of the `DicomDir` object (src/opencmr/pycmr/dicom_dir.py)
after a successful `scan`: the `self.dcmdir` dict holds `RootFolder`, the
study-level tags, and the `Series` list. -/
structure DicomDir where
  rootFolder : String
  studyTags : List (String × PyVal)
  series : List DSeries
deriving DecidableEq

/-- `DicomDir.SERIES_TAGS`. -/
def DicomDir.SERIES_TAGS : List String :=
  ["SeriesInstanceUID", "SeriesNumber", "SeriesDescription", "ProtocolName",
   "SequenceName"]

/-- `DicomDir.STUDY_TAGS`. -/
def DicomDir.STUDY_TAGS : List String :=
  ["StudyInstanceUID", "StudyDescription", "PatientID", "StudyDate",
   "StudyTime", "Modality"]

/-- `DicomDir.IMAGE_TAGS`. -/
def DicomDir.IMAGE_TAGS : List String :=
  ["SOPInstanceUID", "AcquisitionTime", "Rows", "Columns", "TriggerTime",
   "SliceLocation", "SliceThickness", "PixelRepresentation", "PixelSpacing",
   "ImageOrientationPatient", "ImagePositionPatient",
   "SmallestImagePixelValue", "LargestImagePixelValue"]

/-- `TAGS = self.SERIES_TAGS + self.STUDY_TAGS + self.IMAGE_TAGS`. -/
def DicomDir.ALL_TAGS : List String :=
  DicomDir.SERIES_TAGS ++ DicomDir.STUDY_TAGS ++ DicomDir.IMAGE_TAGS

/-- The `new_tag` dict that `DicomDir.scan` builds for one recognized file:
`getattr(dcm, tag) if hasattr(dcm, tag) else None` for every tag, the
`Filename` obtained by deleting the root-folder string from the full path,
and the second attempt for `ImageOrientationPatient` /
`ImagePositionPatient`: when the stored value is `None`, fall back to the
unqualified `ImageOrientation` / `ImagePosition` attribute. -/
def DicomDir.newTagOf (rootFolder path : String) (dcm : Dataset) :
    List (String × PyVal) :=
  let nt := DicomDir.ALL_TAGS.map (fun t => (t, dcm.attrOrNone t))
  let nt := alSet nt "Filename" (.pstr (pyReplace path rootFolder))
  let nt :=
    if alGetD nt "ImageOrientationPatient" .pnone = .pnone then
      alSet nt "ImageOrientationPatient" (dcm.attrOrNone "ImageOrientation")
    else nt
  let nt :=
    if alGetD nt "ImagePositionPatient" .pnone = .pnone then
      alSet nt "ImagePositionPatient" (dcm.attrOrNone "ImagePosition")
    else nt
  nt

/-- Embedding of `DicomDir.__init__` + `DicomDir.scan`: collect the
`new_tag` dict of every recognized file, assert that exactly one distinct
`StudyInstanceUID` value and exactly one distinct `PatientID` value occur
(`AssertionError(None)`, modelled with an empty message — note this also
fires on a folder with no recognizable file, where the set of observed
values is empty), then build the study tags from the first collected file
and group series by the `(SeriesInstanceUID, SeriesNumber)` pair.  Python
iterates the series set in arbitrary order; the model uses `List.dedup`
order.  The two inner `match`es on an empty filter result are unreachable
because every series key originates from `all_tags`. -/
def DicomDir.scan (rootFolder : String) (files : List FileEntry) :
    Except PyErr DicomDir := do
  let all_tags := files.filterMap (fun fe =>
    (read_dicom fe.parsed).map (fun dcm => DicomDir.newTagOf rootFolder fe.path dcm))
  if ((all_tags.map (fun t => alGetD t "StudyInstanceUID" .pnone)).dedup).length ≠ 1 then
    throw (.assertionError "")
  if ((all_tags.map (fun t => alGetD t "PatientID" .pnone)).dedup).length ≠ 1 then
    throw (.assertionError "")
  match all_tags with
  | [] => throw (.assertionError "")
  | t0 :: _ =>
      let studyTags := DicomDir.STUDY_TAGS.map (fun t => (t, alGetD t0 t .pnone))
      let seriesKeys := (all_tags.map (fun t =>
        (alGetD t "SeriesInstanceUID" .pnone, alGetD t "SeriesNumber" .pnone))).dedup
      let series := seriesKeys.filterMap (fun key =>
        match all_tags.filter (fun t =>
          decide (alGetD t "SeriesInstanceUID" .pnone = key.1 ∧
                  alGetD t "SeriesNumber" .pnone = key.2)) with
        | [] => none
        | s0 :: rest =>
            some { tags := DicomDir.SERIES_TAGS.map (fun t => (t, alGetD s0 t .pnone)),
                   images := (s0 :: rest).map (fun ss =>
                     (["Filename"] ++ DicomDir.IMAGE_TAGS).map
                       (fun t => (t, alGetD ss t .pnone))) })
      pure { rootFolder := rootFolder, studyTags := studyTags, series := series }

theorem alGet_nil (k : String) : alGet [] k = none := rfl

theorem alGet_cons (k' : String) (v : PyVal) (rest : List (String × PyVal))
    (k : String) :
    alGet ((k', v) :: rest) k = if k' = k then some v else alGet rest k := rfl

theorem alGet_alSet_self (l : List (String × PyVal)) (k : String) (v : PyVal) :
    alGet (alSet l k v) k = some v := by
  induction l with
  | nil => simp [alSet, alGet]
  | cons kv rest ih =>
      obtain ⟨k', v'⟩ := kv
      by_cases h : k' = k
      · subst h
        simp [alSet, alGet]
      · simp [alSet, alGet, h, ih]

theorem alGet_alSet_ne (l : List (String × PyVal)) (k : String) (v : PyVal)
    (k2 : String) (h : k ≠ k2) :
    alGet (alSet l k v) k2 = alGet l k2 := by
  induction l with
  | nil => simp [alSet, alGet, h]
  | cons kv rest ih =>
      obtain ⟨k', v'⟩ := kv
      by_cases h1 : k' = k
      · subst h1
        simp [alSet, alGet, h]
      · simp only [alSet, if_neg h1, alGet]
        by_cases h2 : k' = k2
        · simp [h2]
        · simp [h2, ih]

/-- C6.  The file classifier `read_dicom` opens every parse result
permissively: when the encoding declaration `TransferSyntaxUID` is missing
from the file meta it substitutes the implicit-little-endian default, and it
returns `None` exactly when the decoded record exposes at most one readable
attribute; otherwise it returns the decoded record (its data set unchanged,
its file meta carrying a `TransferSyntaxUID`). -/
theorem read_dicom_classifier_spec (pf : Dataset) :
    (read_dicom pf = none ↔ pf.elems.length ≤ 1) ∧
    (∀ r, read_dicom pf = some r →
      r.elems = pf.elems ∧
      alGet r.fileMeta "TransferSyntaxUID" =
        (if alMem pf.fileMeta "TransferSyntaxUID" then
           alGet pf.fileMeta "TransferSyntaxUID"
         else some implicitVRLittleEndian)) := by
  have heq : read_dicom pf =
      if pf.elems.length ≤ 1 then none
      else some (if alMem pf.fileMeta "TransferSyntaxUID" then pf
                 else { pf with
                        fileMeta := alSet pf.fileMeta "TransferSyntaxUID" implicitVRLittleEndian }) := by
    unfold read_dicom
    by_cases hm : alMem pf.fileMeta "TransferSyntaxUID" <;> simp [hm]
  rw [heq]
  constructor
  · by_cases hl : pf.elems.length ≤ 1 <;> simp [hl]
  · intro r hr
    by_cases hl : pf.elems.length ≤ 1
    · simp [hl] at hr
    · simp only [hl, if_false, Option.some.injEq] at hr
      subst hr
      by_cases hm : alMem pf.fileMeta "TransferSyntaxUID"
      · simp [hm]
      · simp [hm, alGet_alSet_self]

/-- Witness for C6 at a concrete input: a two-element data set whose file
meta lacks `TransferSyntaxUID` is recognized and gets the default. -/
theorem read_dicom_classifier_spec_witness :
    (read_dicom { fileMeta := [], elems := [("PatientID", .pstr "P1"), ("Rows", .pint 2)] } ≠ none) ∧
    ∀ r, read_dicom { fileMeta := [], elems := [("PatientID", .pstr "P1"), ("Rows", .pint 2)] } = some r →
      alGet r.fileMeta "TransferSyntaxUID" = some implicitVRLittleEndian := by
  have h := read_dicom_classifier_spec
    { fileMeta := [], elems := [("PatientID", .pstr "P1"), ("Rows", .pint 2)] }
  constructor
  · intro hc
    have := h.1.mp hc
    exact absurd this (by decide)
  · intro r hr
    have h2 := h.2 r hr
    have hm : alMem ([] : List (String × PyVal)) "TransferSyntaxUID" = false := rfl
    rw [h2.2]
    simp [alMem, alGet]

/-- C5.  The attribute extractor `get_tag` returns `None` when the attribute
is absent from the record, and otherwise normalizes with this precedence: a
`bytes` value is decoded and split on the backslash separator into an
ordered list of strings; a `MultiValue` is converted to an ordered list of
floats; a single `DSfloat` decimal is converted to one float; every other
value passes through unchanged. -/
theorem get_tag_extractor_spec (dcm : Dataset) (tagName : String) :
    (dcm.attr tagName = none → get_tag dcm tagName = .pnone) ∧
    (∀ s, dcm.attr tagName = some (.pbytes s) →
      get_tag dcm tagName = .plist ((pySplitChar '\\' s.data).map .pstr)) ∧
    (∀ xs, dcm.attr tagName = some (.pmulti xs) →
      get_tag dcm tagName = .plist (xs.map .pfloat)) ∧
    (∀ x, dcm.attr tagName = some (.pds x) →
      get_tag dcm tagName = .pfloat x) ∧
    (∀ v, dcm.attr tagName = some v →
      (∀ s, v ≠ .pbytes s) → (∀ xs, v ≠ .pmulti xs) → (∀ x, v ≠ .pds x) →
      get_tag dcm tagName = v) := by
  unfold get_tag Dataset.attr
  refine ⟨fun h => by rw [h], fun s h => by rw [h], fun xs h => by rw [h],
          fun x h => by rw [h], fun v h hb hm hd => ?_⟩
  rw [h]
  cases v with
  | pbytes s => exact absurd rfl (hb s)
  | pmulti xs => exact absurd rfl (hm xs)
  | pds x => exact absurd rfl (hd x)
  | pnone => rfl
  | pstr s => rfl
  | pint n => rfl
  | pfloat x => rfl
  | plist xs => rfl
  | pdict l => rfl

/-- Witness for C5 at concrete inputs: one record exercising the absent,
bytes, multi-value, decimal-string and pass-through branches. -/
theorem get_tag_extractor_spec_witness :
    (get_tag { fileMeta := [], elems := [("ImageType", .pbytes "A\\B")] } "Missing" = .pnone) ∧
    (get_tag { fileMeta := [], elems := [("ImageType", .pbytes "A\\B")] } "ImageType" =
      .plist [.pstr "A", .pstr "B"]) ∧
    (get_tag { fileMeta := [], elems := [("PixelSpacing", .pmulti [(3 : Rat), 2])] } "PixelSpacing" =
      .plist [.pfloat 3, .pfloat 2]) ∧
    (get_tag { fileMeta := [], elems := [("SliceThickness", .pds (8 : Rat))] } "SliceThickness" =
      .pfloat 8) ∧
    (get_tag { fileMeta := [], elems := [("Rows", .pint 192)] } "Rows" = .pint 192) := by
  refine ⟨?_, ?_, ?_, ?_, ?_⟩
  · exact (get_tag_extractor_spec { fileMeta := [], elems := [("ImageType", .pbytes "A\\B")] }
      "Missing").1 rfl
  · have h := (get_tag_extractor_spec { fileMeta := [], elems := [("ImageType", .pbytes "A\\B")] }
      "ImageType").2.1 "A\\B" rfl
    rw [h]
    decide
  · exact (get_tag_extractor_spec
      { fileMeta := [], elems := [("PixelSpacing", .pmulti [(3 : Rat), 2])] }
      "PixelSpacing").2.2.1 [(3 : Rat), 2] rfl
  · exact (get_tag_extractor_spec
      { fileMeta := [], elems := [("SliceThickness", .pds (8 : Rat))] }
      "SliceThickness").2.2.2.1 (8 : Rat) rfl
  · exact (get_tag_extractor_spec { fileMeta := [], elems := [("Rows", .pint 192)] }
      "Rows").2.2.2.2 (.pint 192) rfl (by intro s h; cases h) (by intro xs h; cases h)
      (by intro x h; cases h)

/-- C9.  `CMRDir.get_filenames` ignores the optional `frame` argument: for
every catalog, study UID, series UID and frame value it returns exactly the
result of the frame-less call — no frame-based trigger-time selection is
performed. -/
theorem get_filenames_frame_ignored (D : CMRDir) (studyUID seriesUID : String)
    (frame : Option PyVal) :
    D.get_filenames studyUID seriesUID frame =
      D.get_filenames studyUID seriesUID none := by
  cases frame <;> rfl

/-- C10.  `CMRStudy.from_file` returns the `CMRStudy` class object itself
for every file name, independently of the contents of the file system (it
never opens the file), and in particular never returns a restored
`CMRStudy` instance. -/
theorem cmrstudy_from_file_returns_class
    (fileSystem fileSystem' : List (String × JVal)) (file_name file_name' : String) :
    CMRStudy.from_file fileSystem file_name = .classObject ∧
    CMRStudy.from_file fileSystem file_name =
      CMRStudy.from_file fileSystem' file_name' := ⟨rfl, rfl⟩

theorem cmrdir_foldlM_skip (dicomFolder : String) (D : CMRDir)
    (files : List FileEntry) (h : ∀ fe ∈ files, read_dicom fe.parsed = none) :
    files.foldlM (CMRDir.processFile dicomFolder) D = .ok D := by
  induction files generalizing D with
  | nil => rfl
  | cons fe rest ih =>
      have h1 : CMRDir.processFile dicomFolder D fe = .ok D := by
        unfold CMRDir.processFile
        rw [h fe (by simp)]
      rw [List.foldlM_cons, h1]
      exact ih D (fun fe' hfe' => h fe' (by simp [hfe']))

/-- C4 (amended).  On a folder containing no recognizable imaging file
(including the empty folder), `CMRDir.from_folder` returns a catalog with
`is_empty() == True`, zero studies, and `get_patient_id()` returning `None`,
with no exception; `DicomDir.scan` on the same folder instead raises an
`AssertionError` (its single-study assert fails on the empty collection of
observed StudyInstanceUID values) and returns no catalog. -/
theorem scan_empty_folder_behaviour (dicomFolder : String)
    (studyName : Option String) (quiet : Bool) (files : List FileEntry)
    (h : ∀ fe ∈ files, read_dicom fe.parsed = none) :
    (∃ D, CMRDir.from_folder dicomFolder studyName quiet files = .ok D ∧
          D.is_empty = .ok true ∧
          D.get_study_uids = .ok [] ∧
          D.get_patient_id none = .ok .pnone) ∧
    DicomDir.scan dicomFolder files = .error (.assertionError "") := by
  constructor
  · refine ⟨{ source := .pstr dicomFolder,
              studyName := .pstr (studyName.getD (pyBasename dicomFolder)),
              dicomDir := .pdict [] }, ?_, rfl, rfl, rfl⟩
    exact cmrdir_foldlM_skip dicomFolder _ files h
  · have hat : files.filterMap (fun fe =>
        (read_dicom fe.parsed).map
          (fun dcm => DicomDir.newTagOf dicomFolder fe.path dcm)) = [] := by
      rw [List.filterMap_eq_nil_iff]
      intro fe hfe
      rw [h fe hfe]
      rfl
    unfold DicomDir.scan
    rw [hat]
    rfl

/-- Witness for C4 (amended) at a concrete input: a folder holding a single
unparseable text file. -/
theorem scan_empty_folder_behaviour_witness :
    (∃ D, CMRDir.from_folder "/r" (some "study1") true
        [⟨"/r/notes.txt", { fileMeta := [], elems := [("X", .pint 1)] }⟩] = .ok D ∧
          D.is_empty = .ok true ∧
          D.get_study_uids = .ok [] ∧
          D.get_patient_id none = .ok .pnone) ∧
    DicomDir.scan "/r"
        [⟨"/r/notes.txt", { fileMeta := [], elems := [("X", .pint 1)] }⟩] =
      .error (.assertionError "") :=
  scan_empty_folder_behaviour "/r" (some "study1") true
    [⟨"/r/notes.txt", { fileMeta := [], elems := [("X", .pint 1)] }⟩]
    (by
      intro fe hfe
      rw [List.mem_singleton] at hfe
      subst hfe
      rfl)

/-- C4 counterexample.  On the empty folder, `DicomDir.scan` does not return
an empty catalog: the single-study assert fails on the empty collection of
observed values and an `AssertionError` escapes, contradicting the claim
that no exception escapes the catalog boundary. -/
theorem dicomdir_scan_empty_folder_raises :
    DicomDir.scan "/r" [] = .error (.assertionError "") := rfl

theorem exceptBind_ok {α β : Type} (x : α) (f : α → Except PyErr β) :
    (Except.ok x : Except PyErr α) >>= f = f x := rfl

theorem exceptBind_error {α β : Type} (e : PyErr) (f : α → Except PyErr β) :
    (Except.error e : Except PyErr α) >>= f = .error e := rfl

theorem exceptBind_ok_iff {α β : Type} (x : Except PyErr α)
    (f : α → Except PyErr β) (c : β) :
    x >>= f = .ok c ↔ ∃ b, x = .ok b ∧ f b = .ok c := by
  cases x with
  | ok b => simp [exceptBind_ok]
  | error e => simp [exceptBind_error]

theorem alGet_append_of_none (l1 l2 : List (String × PyVal)) (k : String)
    (h : alGet l1 k = none) : alGet (l1 ++ l2) k = alGet l2 k := by
  induction l1 with
  | nil => rfl
  | cons kv rest ih =>
      obtain ⟨k', v'⟩ := kv
      by_cases hk : k' = k
      · subst hk
        simp [alGet] at h
      · simp only [alGet, if_neg hk] at h
        simp only [List.cons_append, alGet, if_neg hk]
        exact ih h

theorem alGet_append_of_some (l1 l2 : List (String × PyVal)) (k : String)
    (v : PyVal) (h : alGet l1 k = some v) : alGet (l1 ++ l2) k = some v := by
  induction l1 with
  | nil => simp [alGet] at h
  | cons kv rest ih =>
      obtain ⟨k', v'⟩ := kv
      by_cases hk : k' = k
      · subst hk
        simp only [alGet, if_pos rfl] at h
        simp only [List.cons_append, alGet, if_pos rfl]
        exact h
      · simp only [alGet, if_neg hk] at h
        simp only [List.cons_append, alGet, if_neg hk]
        exact ih h

theorem alSet_of_none (l : List (String × PyVal)) (k : String) (v : PyVal)
    (h : alGet l k = none) : alSet l k v = l ++ [(k, v)] := by
  induction l with
  | nil => rfl
  | cons kv rest ih =>
      obtain ⟨k', v'⟩ := kv
      by_cases hk : k' = k
      · subst hk
        simp [alGet] at h
      · simp only [alGet, if_neg hk] at h
        simp only [alSet, if_neg hk, List.cons_append]
        rw [ih h]

theorem alSet_append_of_none (l1 l2 : List (String × PyVal)) (k : String)
    (v : PyVal) (h : alGet l1 k = none) :
    alSet (l1 ++ l2) k v = l1 ++ alSet l2 k v := by
  induction l1 with
  | nil => rfl
  | cons kv rest ih =>
      obtain ⟨k', v'⟩ := kv
      by_cases hk : k' = k
      · subst hk
        simp [alGet] at h
      · simp only [alGet, if_neg hk] at h
        simp only [List.cons_append, alSet, if_neg hk]
        exact congrArg (fun l => (k', v') :: l) (ih h)

theorem alGet_map_tags_of_not_mem (TAGS : List String) (f : String → PyVal)
    (k : String) (h : k ∉ TAGS) :
    alGet (TAGS.map (fun t => (t, f t))) k = none := by
  induction TAGS with
  | nil => rfl
  | cons t rest ih =>
      simp only [List.mem_cons, not_or] at h
      simp only [List.map_cons, alGet]
      rw [if_neg (fun heq => h.1 heq.symm)]
      exact ih h.2

theorem alMem_map_tags_of_not_mem (TAGS : List String) (f : String → PyVal)
    (k : String) (h : k ∉ TAGS) :
    alMem (TAGS.map (fun t => (t, f t))) k = false := by
  unfold alMem
  rw [alGet_map_tags_of_not_mem TAGS f k h]
  rfl

/-- The instance dict built by `CMRDir.from_folder` for one file: the
instance tags extracted by `get_tag` plus the `Filename` entry. -/
def cmrdirInstance (root path : String) (dcm : Dataset) : PyVal :=
  .pdict ((CMRDir.INSTANCE_TAGS.map (fun s => (s, get_tag dcm s))) ++
    [("Filename", .pstr (pyReplace path (joinEmpty root)))])

/-- The study-level tag entries extracted from a record. -/
def cmrdirStudyDict (dcm : Dataset) : List (String × PyVal) :=
  CMRDir.STUDY_TAGS.map (fun s => (s, get_tag dcm s))

/-- The series-level tag entries extracted from a record. -/
def cmrdirSeriesDict (dcm : Dataset) : List (String × PyVal) :=
  CMRDir.SERIES_TAGS.map (fun s => (s, get_tag dcm s))

/-- A `CMRDir.dicomDir` holding one study, one series and one instance. -/
def cmrdirCatalogDict (su se sop : String) (dcmStudy dcmSeries : Dataset)
    (inst : PyVal) : PyVal :=
  .pdict [(su, .pdict (cmrdirStudyDict dcmStudy ++
    [(se, .pdict (cmrdirSeriesDict dcmSeries ++ [(sop, inst)]))]))]

theorem pureExcept {α : Type} (x : α) : (pure x : Except PyErr α) = .ok x := rfl

theorem pdMem_pdict (l : List (String × PyVal)) (k : String) :
    pdMem (.pdict l) k = .ok (alMem l k) := rfl

theorem pdSet_pdict (l : List (String × PyVal)) (k : String) (v : PyVal) :
    pdSet (.pdict l) k v = .ok (.pdict (alSet l k v)) := rfl

theorem pdGet_pdict_of_some (l : List (String × PyVal)) (k : String)
    (v : PyVal) (h : alGet l k = some v) : pdGet (.pdict l) k = .ok v := by
  have he : pdGet (.pdict l) k =
      (match alGet l k with
       | some v => Except.ok v
       | none => Except.error (.keyError k)) := rfl
  rw [he, h]

theorem pdGet_pdict_of_none (l : List (String × PyVal)) (k : String)
    (h : alGet l k = none) : pdGet (.pdict l) k = .error (.keyError k) := by
  have he : pdGet (.pdict l) k =
      (match alGet l k with
       | some v => Except.ok v
       | none => Except.error (.keyError k)) := rfl
  rw [he, h]

theorem alMem_eq (l : List (String × PyVal)) (k : String) :
    alMem l k = (alGet l k).isSome := rfl

theorem alGet_cons_self (k : String) (v : PyVal) (rest : List (String × PyVal)) :
    alGet ((k, v) :: rest) k = some v := by
  simp [alGet]

theorem alSet_nil (k : String) (v : PyVal) : alSet [] k v = [(k, v)] := rfl

theorem alSet_cons_self (k : String) (v' v : PyVal) (rest : List (String × PyVal)) :
    alSet ((k, v') :: rest) k v = (k, v) :: rest := by
  simp [alSet]

theorem cmrdir_processFile_fresh (root : String) (D : CMRDir) (fe : FileEntry)
    (dcm : Dataset) (su se sop : String)
    (hread : read_dicom fe.parsed = some dcm)
    (hsu : dcm.uidAttr "StudyInstanceUID" = .ok su)
    (hse : dcm.uidAttr "SeriesInstanceUID" = .ok se)
    (hsop : dcm.uidAttr "SOPInstanceUID" = .ok sop)
    (hD : D.dicomDir = .pdict [])
    (hseT : se ∉ CMRDir.STUDY_TAGS)
    (hsopT : sop ∉ CMRDir.SERIES_TAGS) :
    CMRDir.processFile root D fe =
      .ok { D with dicomDir := cmrdirCatalogDict su se sop dcm dcm (cmrdirInstance root fe.path dcm) } := by
  have h1 : alGet (CMRDir.STUDY_TAGS.map (fun s => (s, get_tag dcm s))) se = none :=
    alGet_map_tags_of_not_mem _ _ _ hseT
  have h2 : alGet (CMRDir.SERIES_TAGS.map (fun s => (s, get_tag dcm s))) sop = none :=
    alGet_map_tags_of_not_mem _ _ _ hsopT
  unfold CMRDir.processFile CMRDir.processRest CMRDir.processTail
  rw [hread, hD]
  simp only [hsu, hse, hsop, exceptBind_ok, pureExcept, pdMem_pdict, pdSet_pdict,
    pdGet_pdict_of_some, pdGet_pdict_of_none, alMem_eq, alGet_nil, alGet_cons_self,
    alSet_nil, alSet_cons_self, h1, h2, Option.isSome_none, Option.isSome_some,
    Bool.false_eq_true, if_false, if_true, alGet_append_of_none, alSet_of_none,
    alSet_append_of_none, List.nil_append, cmrdirCatalogDict, cmrdirStudyDict,
    cmrdirSeriesDict, cmrdirInstance]
  rw [pdGet_pdict_of_some _ _ _ (alGet_cons_self _ _ _), exceptBind_ok,
    pdMem_pdict, exceptBind_ok, alMem_eq, h1]
  simp only [Option.isSome_none, Bool.false_eq_true, if_false]
  rw [pdSet_pdict, exceptBind_ok, alSet_of_none _ _ _ h1,
    pdGet_pdict_of_some _ _ _ (alGet_cons_self _ _ _), exceptBind_ok]
  have h4 : alGet ((CMRDir.STUDY_TAGS.map (fun s => (s, get_tag dcm s))) ++
      [(se, PyVal.pdict (CMRDir.SERIES_TAGS.map (fun s => (s, get_tag dcm s))))]) se =
      some (PyVal.pdict (CMRDir.SERIES_TAGS.map (fun s => (s, get_tag dcm s)))) := by
    rw [alGet_append_of_none _ _ _ h1]
    exact alGet_cons_self _ _ _
  rw [pdGet_pdict_of_some _ _ _ h4, exceptBind_ok,
    pdSet_pdict, exceptBind_ok, alSet_of_none _ _ _ h2,
    pdSet_pdict, exceptBind_ok, alSet_append_of_none _ _ _ _ h1, alSet_cons_self]

/-- A `CMRDir.dicomDir` holding one study, one series and one instance,
with explicit tag entry lists. -/
def cmrdirTree (su se sop : String) (studyTagsL seriesTagsL : List (String × PyVal))
    (inst : PyVal) : PyVal :=
  .pdict [(su, .pdict (studyTagsL ++ [(se, .pdict (seriesTagsL ++ [(sop, inst)]))]))]

theorem cmrdir_processFile_existing (root : String) (D : CMRDir) (fe : FileEntry)
    (dcm : Dataset) (su se sop : String)
    (studyTagsL seriesTagsL : List (String × PyVal)) (oldInst : PyVal)
    (hread : read_dicom fe.parsed = some dcm)
    (hsu : dcm.uidAttr "StudyInstanceUID" = .ok su)
    (hse : dcm.uidAttr "SeriesInstanceUID" = .ok se)
    (hsop : dcm.uidAttr "SOPInstanceUID" = .ok sop)
    (hD : D.dicomDir = cmrdirTree su se sop studyTagsL seriesTagsL oldInst)
    (h1 : alGet studyTagsL se = none)
    (h2 : alGet seriesTagsL sop = none) :
    CMRDir.processFile root D fe =
      .ok { D with dicomDir := cmrdirTree su se sop studyTagsL seriesTagsL (cmrdirInstance root fe.path dcm) } := by
  have hx : alGet (studyTagsL ++ [(se, PyVal.pdict (seriesTagsL ++ [(sop, oldInst)]))]) se =
      some (PyVal.pdict (seriesTagsL ++ [(sop, oldInst)])) := by
    rw [alGet_append_of_none _ _ _ h1]
    exact alGet_cons_self _ _ _
  have hgA : pdGet (PyVal.pdict [(su, PyVal.pdict (studyTagsL ++ [(se, PyVal.pdict (seriesTagsL ++ [(sop, oldInst)]))]))]) su = Except.ok (PyVal.pdict (studyTagsL ++ [(se, PyVal.pdict (seriesTagsL ++ [(sop, oldInst)]))])) :=
    pdGet_pdict_of_some _ _ _ (alGet_cons_self _ _ _)
  have hgB : pdGet (PyVal.pdict (studyTagsL ++ [(se, PyVal.pdict (seriesTagsL ++ [(sop, oldInst)]))])) se = Except.ok (PyVal.pdict (seriesTagsL ++ [(sop, oldInst)])) :=
    pdGet_pdict_of_some _ _ _ hx
  unfold CMRDir.processFile CMRDir.processRest CMRDir.processTail
  rw [hread, hD]
  unfold cmrdirTree
  simp only [hsu, hse, hsop, exceptBind_ok, pureExcept, pdMem_pdict, pdSet_pdict,
    alMem_eq, alGet_cons_self, hx, hgA, hgB, Option.isSome_some, if_true,
    alSet_append_of_none, h1, h2, alSet_cons_self, cmrdirInstance]

theorem cmrdirCatalogDict_eq_tree (su se sop : String) (d1 d2 : Dataset)
    (inst : PyVal) :
    cmrdirCatalogDict su se sop d1 d2 inst =
      cmrdirTree su se sop (cmrdirStudyDict d1) (cmrdirSeriesDict d2) inst := rfl

/-- The instance dict built by `CMRStudy.from_folder` for one file. -/
def cmrstudyInstance (root path : String) (dcm : Dataset) : PyVal :=
  .pdict ((CMRStudy.INSTANCE_TAGS.map (fun t => (t, get_tag dcm t))) ++
    [("Filename", .pstr (pyReplace path (joinEmpty root)))])

/-- The series dict of a single-series, single-instance `CMRStudy.dcmdir`. -/
def cmrstudySeries (dcm : Dataset) (sop : String) (inst : PyVal) : PyVal :=
  .pdict ((CMRStudy.SERIES_TAGS.map (fun t => (t, get_tag dcm t))) ++
    [("Instances", .pdict [(sop, inst)])])

/-- A `CMRStudy.dcmdir` holding one series with one instance. -/
def cmrstudyDD (se sop : String) (dcm : Dataset) (inst : PyVal) : PyVal :=
  .pdict ((CMRStudy.STUDY_TAGS.map (fun t => (t, get_tag dcm t))) ++
    [("Series", .pdict [(se, cmrstudySeries dcm sop inst)])])

theorem cmrstudy_processFile_first (folder : String) (fe : FileEntry)
    (dcm : Dataset) (su se sop : String)
    (hread : read_dicom fe.parsed = some dcm)
    (hsu : dcm.uidAttr "StudyInstanceUID" = .ok su)
    (hse : dcm.uidAttr "SeriesInstanceUID" = .ok se)
    (hsop : dcm.uidAttr "SOPInstanceUID" = .ok sop) :
    CMRStudy.processFile folder false none fe =
      .ok (some (su, cmrstudyDD se sop dcm (cmrstudyInstance folder fe.path dcm))) := by
  have hSeriesKey : alGet (CMRStudy.STUDY_TAGS.map (fun t => (t, get_tag dcm t))) "Series" = none :=
    alGet_map_tags_of_not_mem _ _ _ (by decide)
  have hInstKey : alGet (CMRStudy.SERIES_TAGS.map (fun t => (t, get_tag dcm t))) "Instances" = none :=
    alGet_map_tags_of_not_mem _ _ _ (by decide)
  have hg1 : pdGet (PyVal.pdict ((CMRStudy.STUDY_TAGS.map (fun t => (t, get_tag dcm t))) ++ [("Series", PyVal.pdict [])])) "Series" = Except.ok (PyVal.pdict []) := by
    refine pdGet_pdict_of_some _ _ _ ?_
    rw [alGet_append_of_none _ _ _ hSeriesKey]
    exact alGet_cons_self _ _ _
  have hg2 : pdGet (PyVal.pdict ((CMRStudy.STUDY_TAGS.map (fun t => (t, get_tag dcm t))) ++ [("Series", PyVal.pdict [(se, PyVal.pdict ((CMRStudy.SERIES_TAGS.map (fun t => (t, get_tag dcm t))) ++ [("Instances", PyVal.pdict [])]))])])) "Series" = Except.ok (PyVal.pdict [(se, PyVal.pdict ((CMRStudy.SERIES_TAGS.map (fun t => (t, get_tag dcm t))) ++ [("Instances", PyVal.pdict [])]))]) := by
    refine pdGet_pdict_of_some _ _ _ ?_
    rw [alGet_append_of_none _ _ _ hSeriesKey]
    exact alGet_cons_self _ _ _
  have hg4 : pdGet (PyVal.pdict ((CMRStudy.SERIES_TAGS.map (fun t => (t, get_tag dcm t))) ++ [("Instances", PyVal.pdict [])])) "Instances" = Except.ok (PyVal.pdict []) := by
    refine pdGet_pdict_of_some _ _ _ ?_
    rw [alGet_append_of_none _ _ _ hInstKey]
    exact alGet_cons_self _ _ _
  have hg3 : pdGet (PyVal.pdict [(se, PyVal.pdict ((CMRStudy.SERIES_TAGS.map (fun t => (t, get_tag dcm t))) ++ [("Instances", PyVal.pdict [])]))]) se = Except.ok (PyVal.pdict ((CMRStudy.SERIES_TAGS.map (fun t => (t, get_tag dcm t))) ++ [("Instances", PyVal.pdict [])])) :=
    pdGet_pdict_of_some _ _ _ (alGet_cons_self _ _ _)
  unfold CMRStudy.processFile CMRStudy.processRest CMRStudy.processTail
  rw [hread]
  simp only [hsu, hse, hsop, exceptBind_ok, pureExcept, pdMem_pdict, pdSet_pdict,
    alMem_eq, alGet_nil, alGet_cons_self, alSet_nil,
    alSet_cons_self, alSet_append_of_none, hSeriesKey, hInstKey, hg1, hg2, hg3, hg4,
    Option.isSome_none, Option.isSome_some, Bool.false_eq_true, if_false, if_true,
    ne_eq, eq_self_iff_true, not_true, cmrstudyDD, cmrstudySeries, cmrstudyInstance]

theorem throwExcept {α : Type} (e : PyErr) : (throw e : Except PyErr α) = .error e := rfl

theorem cmrstudy_processFile_dup (folder : String) (fe : FileEntry)
    (dcm dcm0 : Dataset) (u se sop : String) (inst : PyVal)
    (hread : read_dicom fe.parsed = some dcm)
    (hsu : dcm.uidAttr "StudyInstanceUID" = .ok u)
    (hse : dcm.uidAttr "SeriesInstanceUID" = .ok se)
    (hsop : dcm.uidAttr "SOPInstanceUID" = .ok sop) :
    CMRStudy.processFile folder false (some (u, cmrstudyDD se sop dcm0 inst)) fe =
      .error (.assertionError duplicateInstanceMsg) := by
  have hSeriesKey : alGet (CMRStudy.STUDY_TAGS.map (fun t => (t, get_tag dcm0 t))) "Series" = none :=
    alGet_map_tags_of_not_mem _ _ _ (by decide)
  have hInstKey : alGet (CMRStudy.SERIES_TAGS.map (fun t => (t, get_tag dcm0 t))) "Instances" = none :=
    alGet_map_tags_of_not_mem _ _ _ (by decide)
  have hg2 : pdGet (cmrstudyDD se sop dcm0 inst) "Series" = Except.ok (PyVal.pdict [(se, cmrstudySeries dcm0 sop inst)]) := by
    unfold cmrstudyDD
    refine pdGet_pdict_of_some _ _ _ ?_
    rw [alGet_append_of_none _ _ _ hSeriesKey]
    exact alGet_cons_self _ _ _
  have hg3 : pdGet (PyVal.pdict [(se, cmrstudySeries dcm0 sop inst)]) se = Except.ok (cmrstudySeries dcm0 sop inst) :=
    pdGet_pdict_of_some _ _ _ (alGet_cons_self _ _ _)
  have hg4 : pdGet (cmrstudySeries dcm0 sop inst) "Instances" = Except.ok (PyVal.pdict [(sop, inst)]) := by
    unfold cmrstudySeries
    refine pdGet_pdict_of_some _ _ _ ?_
    rw [alGet_append_of_none _ _ _ hInstKey]
    exact alGet_cons_self _ _ _
  unfold CMRStudy.processFile CMRStudy.processRest CMRStudy.processTail
  rw [hread]
  simp only [hsu, hse, hsop, exceptBind_ok, pureExcept, pdMem_pdict,
    alMem_eq, alGet_cons_self, hg2, hg3, hg4,
    Option.isSome_some, if_true, Bool.false_eq_true, if_false,
    ne_eq, eq_self_iff_true, not_true, throwExcept, exceptBind_error]

theorem cmrstudy_processFile_wrong_study (folder : String) (verbose : Bool)
    (fe : FileEntry) (dcm : Dataset) (u u2 : String) (dd : PyVal)
    (hread : read_dicom fe.parsed = some dcm)
    (hsu : dcm.uidAttr "StudyInstanceUID" = .ok u2)
    (hne : u2 ≠ u) :
    CMRStudy.processFile folder verbose (some (u, dd)) fe =
      .error (.assertionError multipleStudiesMsg) := by
  unfold CMRStudy.processFile
  rw [hread]
  simp only [hsu, exceptBind_ok, pureExcept, ne_eq, hne, not_false_iff, if_true,
    throwExcept, exceptBind_error]

/-- C1 (amended).  For a folder whose two recognizable files carry the same
StudyInstanceUID, SeriesInstanceUID and SOPInstanceUID: the single-study
scan `CMRStudy.from_folder` fails with the duplicate-instance assertion,
while the lenient catalog scan `CMRDir.from_folder` succeeds and stores
exactly one instance under that UID — but that instance is the plain dict
re-assignment from the second file (the first file's instance data is
silently overwritten, and no skip is recorded). -/
theorem duplicate_sop_behaviour (root : String) (studyName : Option String)
    (quiet : Bool) (fe1 fe2 : FileEntry) (dcm1 dcm2 : Dataset) (su se sop : String)
    (hr1 : read_dicom fe1.parsed = some dcm1)
    (hr2 : read_dicom fe2.parsed = some dcm2)
    (hsu1 : dcm1.uidAttr "StudyInstanceUID" = .ok su)
    (hse1 : dcm1.uidAttr "SeriesInstanceUID" = .ok se)
    (hsop1 : dcm1.uidAttr "SOPInstanceUID" = .ok sop)
    (hsu2 : dcm2.uidAttr "StudyInstanceUID" = .ok su)
    (hse2 : dcm2.uidAttr "SeriesInstanceUID" = .ok se)
    (hsop2 : dcm2.uidAttr "SOPInstanceUID" = .ok sop)
    (hseT : se ∉ CMRDir.STUDY_TAGS)
    (hsopT : sop ∉ CMRDir.SERIES_TAGS) :
    CMRDir.from_folder root studyName quiet [fe1, fe2] =
      .ok { source := .pstr root,
            studyName := .pstr (studyName.getD (pyBasename root)),
            dicomDir := cmrdirTree su se sop (cmrdirStudyDict dcm1) (cmrdirSeriesDict dcm1) (cmrdirInstance root fe2.path dcm2) } ∧
    CMRStudy.from_folder root false [fe1, fe2] =
      .error (.assertionError duplicateInstanceMsg) := by
  constructor
  · unfold CMRDir.from_folder
    rw [List.foldlM_cons,
        cmrdir_processFile_fresh root _ fe1 dcm1 su se sop hr1 hsu1 hse1 hsop1 rfl hseT hsopT,
        exceptBind_ok, List.foldlM_cons,
        cmrdir_processFile_existing root _ fe2 dcm2 su se sop
          (cmrdirStudyDict dcm1) (cmrdirSeriesDict dcm1) (cmrdirInstance root fe1.path dcm1)
          hr2 hsu2 hse2 hsop2 rfl
          (alGet_map_tags_of_not_mem _ _ _ hseT)
          (alGet_map_tags_of_not_mem _ _ _ hsopT)]
    rfl
  · unfold CMRStudy.from_folder
    rw [List.foldlM_cons,
        cmrstudy_processFile_first root fe1 dcm1 su se sop hr1 hsu1 hse1 hsop1,
        exceptBind_ok, List.foldlM_cons,
        cmrstudy_processFile_dup root fe2 dcm2 dcm1 su se sop
          (cmrstudyInstance root fe1.path dcm1) hr2 hsu2 hse2 hsop2]
    rfl

/-- A concrete recognizable file: study 1.2.3, series 1.2.3.4,
SOP instance 1.2.3.4.5, AcquisitionTime 10. -/
def dupFileA : FileEntry :=
  ⟨"/r/f1.dcm",
   { fileMeta := [],
     elems := [("StudyInstanceUID", .pstr "1.2.3"),
               ("SeriesInstanceUID", .pstr "1.2.3.4"),
               ("SOPInstanceUID", .pstr "1.2.3.4.5"),
               ("AcquisitionTime", .pint 10)] }⟩

/-- A second file with the same three UIDs but AcquisitionTime 20. -/
def dupFileB : FileEntry :=
  ⟨"/r/f2.dcm",
   { fileMeta := [],
     elems := [("StudyInstanceUID", .pstr "1.2.3"),
               ("SeriesInstanceUID", .pstr "1.2.3.4"),
               ("SOPInstanceUID", .pstr "1.2.3.4.5"),
               ("AcquisitionTime", .pint 20)] }⟩

/-- `dupFileA` after `read_dicom` (default transfer syntax added). -/
def dupDcmA : Dataset :=
  { fileMeta := [("TransferSyntaxUID", implicitVRLittleEndian)],
    elems := [("StudyInstanceUID", .pstr "1.2.3"),
              ("SeriesInstanceUID", .pstr "1.2.3.4"),
              ("SOPInstanceUID", .pstr "1.2.3.4.5"),
              ("AcquisitionTime", .pint 10)] }

/-- `dupFileB` after `read_dicom`. -/
def dupDcmB : Dataset :=
  { fileMeta := [("TransferSyntaxUID", implicitVRLittleEndian)],
    elems := [("StudyInstanceUID", .pstr "1.2.3"),
              ("SeriesInstanceUID", .pstr "1.2.3.4"),
              ("SOPInstanceUID", .pstr "1.2.3.4.5"),
              ("AcquisitionTime", .pint 20)] }

/-- Witness for C1 (amended) at a concrete two-file folder. -/
theorem duplicate_sop_behaviour_witness :
    CMRDir.from_folder "/r" (some "s") true [dupFileA, dupFileB] =
      .ok { source := .pstr "/r", studyName := .pstr "s",
            dicomDir := cmrdirTree "1.2.3" "1.2.3.4" "1.2.3.4.5" (cmrdirStudyDict dupDcmA) (cmrdirSeriesDict dupDcmA) (cmrdirInstance "/r" "/r/f2.dcm" dupDcmB) } ∧
    CMRStudy.from_folder "/r" false [dupFileA, dupFileB] =
      .error (.assertionError duplicateInstanceMsg) :=
  duplicate_sop_behaviour "/r" (some "s") true dupFileA dupFileB dupDcmA dupDcmB
    "1.2.3" "1.2.3.4" "1.2.3.4.5" rfl rfl rfl rfl rfl rfl rfl rfl
    (by decide) (by decide)

/-- C1 counterexample.  Scanning a folder with two recognizable files whose
SOPInstanceUIDs coincide, the lenient catalog `CMRDir.from_folder` keeps
exactly one instance under that UID, but its stored data (here
AcquisitionTime) is the second file's value 20 — the first file's value 10
was silently overwritten and no skip was recorded, contradicting the claim
that the previously stored instance data is never overwritten. -/
theorem cmrdir_silent_overwrite_counterexample :
    ((CMRDir.from_folder "/r" (some "s") true [dupFileA, dupFileB]).bind (fun D =>
      (pdGet D.dicomDir "1.2.3").bind (fun sd =>
      (pdGet sd "1.2.3.4").bind (fun sed =>
      (pdGet sed "1.2.3.4.5").bind (fun inst =>
      pdGet inst "AcquisitionTime"))))) = .ok (.pint 20) ∧
    ((CMRDir.from_folder "/r" (some "s") true [dupFileA, dupFileB]).bind (fun D =>
      D.get_sop_uids "1.2.3" "1.2.3.4")) = .ok ["1.2.3.4.5"] ∧
    get_tag dupDcmA "AcquisitionTime" = .pint 10 ∧
    (PyVal.pint 10 ≠ PyVal.pint 20) :=
  ⟨rfl, rfl, rfl, by decide⟩


theorem cmrstudy_processTail_ok_shape (folder : String) (fe : FileEntry)
    (dcm : Dataset) (u se : String) (dd : PyVal)
    (st' : Option (String × PyVal))
    (hok : CMRStudy.processTail folder fe dcm u se dd = .ok st') :
    ∃ dd', st' = some (u, dd') := by
  unfold CMRStudy.processTail at hok
  rw [exceptBind_ok_iff] at hok
  obtain ⟨sop, _, hok⟩ := hok
  rw [exceptBind_ok_iff] at hok
  obtain ⟨sm2, _, hok⟩ := hok
  rw [exceptBind_ok_iff] at hok
  obtain ⟨sd, _, hok⟩ := hok
  rw [exceptBind_ok_iff] at hok
  obtain ⟨insts, _, hok⟩ := hok
  rw [exceptBind_ok_iff] at hok
  obtain ⟨memSop, _, hok⟩ := hok
  cases memSop with
  | true =>
      simp only [if_true, throwExcept, exceptBind_error] at hok
      cases hok
  | false =>
      simp only [Bool.false_eq_true, if_false, pureExcept, exceptBind_ok] at hok
      rw [exceptBind_ok_iff] at hok
      obtain ⟨sop2, _, hok⟩ := hok
      rw [exceptBind_ok_iff] at hok
      obtain ⟨insts2, _, hok⟩ := hok
      rw [exceptBind_ok_iff] at hok
      obtain ⟨sd2, _, hok⟩ := hok
      rw [exceptBind_ok_iff] at hok
      obtain ⟨sm3, _, hok⟩ := hok
      rw [exceptBind_ok_iff] at hok
      obtain ⟨ddF, _, hok⟩ := hok
      simp only [pureExcept, Except.ok.injEq] at hok
      exact ⟨ddF, hok.symm⟩

theorem cmrstudy_processRest_ok_shape (folder : String) (verbose : Bool)
    (fe : FileEntry) (dcm : Dataset) (u : String) (dd : PyVal)
    (st' : Option (String × PyVal))
    (hok : CMRStudy.processRest folder verbose fe dcm u dd = .ok st') :
    ∃ dd', st' = some (u, dd') := by
  unfold CMRStudy.processRest at hok
  rw [exceptBind_ok_iff] at hok
  obtain ⟨se, _, hok⟩ := hok
  rw [exceptBind_ok_iff] at hok
  obtain ⟨sm, _, hok⟩ := hok
  rw [exceptBind_ok_iff] at hok
  obtain ⟨memSe, _, hok⟩ := hok
  cases memSe with
  | true =>
      simp only [if_true, pureExcept, exceptBind_ok] at hok
      exact cmrstudy_processTail_ok_shape folder fe dcm u se dd st' hok
  | false =>
      simp only [Bool.false_eq_true, if_false] at hok
      rw [exceptBind_ok_iff] at hok
      obtain ⟨sm2, _, hok⟩ := hok
      rw [exceptBind_ok_iff] at hok
      obtain ⟨dd2, _, hok⟩ := hok
      cases verbose with
      | true =>
          simp only [if_true] at hok
          rw [exceptBind_ok_iff] at hok
          obtain ⟨w, _, hok⟩ := hok
          simp only [pureExcept, exceptBind_ok] at hok
          exact cmrstudy_processTail_ok_shape folder fe dcm u se dd2 st' hok
      | false =>
          simp only [Bool.false_eq_true, if_false, pureExcept, exceptBind_ok] at hok
          exact cmrstudy_processTail_ok_shape folder fe dcm u se dd2 st' hok

theorem cmrstudy_step_some_ok (folder : String) (verbose : Bool) (u : String)
    (dd : PyVal) (fe : FileEntry) (st' : Option (String × PyVal))
    (hok : CMRStudy.processFile folder verbose (some (u, dd)) fe = .ok st') :
    (∀ dcm, read_dicom fe.parsed = some dcm →
      dcm.uidAttr "StudyInstanceUID" = .ok u) ∧
    ∃ dd', st' = some (u, dd') := by
  unfold CMRStudy.processFile at hok
  cases hread : read_dicom fe.parsed with
  | none =>
      rw [hread] at hok
      simp only [Except.ok.injEq] at hok
      refine ⟨fun dcm h => ?_, ⟨dd, hok.symm⟩⟩
      cases h
  | some dcm =>
      rw [hread] at hok
      simp only [pureExcept, exceptBind_ok] at hok
      rw [exceptBind_ok_iff] at hok
      obtain ⟨u2, huid, hok⟩ := hok
      by_cases hne : u2 = u
      · subst hne
        refine ⟨fun dcm' h => ?_, ?_⟩
        · injection h with h
          subst h
          exact huid
        · simp only [ne_eq, eq_self_iff_true, not_true, if_false, pureExcept,
            exceptBind_ok] at hok
          exact cmrstudy_processRest_ok_shape folder verbose fe dcm u2 dd st' hok
      · exfalso
        rw [if_pos hne] at hok
        simp only [throwExcept, exceptBind_error] at hok
        cases hok

theorem cmrstudy_step_none_ok (folder : String) (verbose : Bool)
    (fe : FileEntry) (st' : Option (String × PyVal))
    (hok : CMRStudy.processFile folder verbose none fe = .ok st') :
    (read_dicom fe.parsed = none → st' = none) ∧
    (∀ dcm, read_dicom fe.parsed = some dcm →
      ∃ u dd', dcm.uidAttr "StudyInstanceUID" = .ok u ∧ st' = some (u, dd')) := by
  unfold CMRStudy.processFile at hok
  cases hread : read_dicom fe.parsed with
  | none =>
      rw [hread] at hok
      simp only [Except.ok.injEq] at hok
      refine ⟨fun _ => hok.symm, fun dcm h => ?_⟩
      cases h
  | some dcm =>
      rw [hread] at hok
      refine ⟨fun h => ?err, fun dcm' h => ?_⟩
      case err => cases h
      injection h with h
      subst h
      simp only [pureExcept, exceptBind_ok] at hok
      rw [exceptBind_ok_iff] at hok
      obtain ⟨u, huid, hok⟩ := hok
      have hrest : CMRStudy.processRest folder verbose fe dcm u
          (PyVal.pdict ((CMRStudy.STUDY_TAGS.map (fun t => (t, get_tag dcm t))) ++
            [("Series", .pdict [])])) = .ok st' := by
        cases verbose with
        | true =>
            simp only [if_true] at hok
            rw [exceptBind_ok_iff] at hok
            obtain ⟨w, _, hok⟩ := hok
            rw [exceptBind_ok_iff] at hok
            obtain ⟨u2, huid2, hok⟩ := hok
            rw [huid] at huid2
            injection huid2 with huid2
            subst huid2
            simpa only [ne_eq, eq_self_iff_true, not_true, if_false] using hok
        | false =>
            simp only [Bool.false_eq_true, if_false] at hok
            rw [exceptBind_ok_iff] at hok
            obtain ⟨u2, huid2, hok⟩ := hok
            rw [huid] at huid2
            injection huid2 with huid2
            subst huid2
            simpa only [ne_eq, eq_self_iff_true, not_true, if_false] using hok
      obtain ⟨dd', hst⟩ := cmrstudy_processRest_ok_shape folder verbose fe dcm u _ st' hrest
      exact ⟨u, dd', huid, hst⟩

theorem cmrstudy_fold_some_ok (folder : String) (verbose : Bool)
    (files : List FileEntry) (u : String) (dd : PyVal)
    (st' : Option (String × PyVal))
    (hok : files.foldlM (CMRStudy.processFile folder verbose) (some (u, dd)) = .ok st') :
    ∀ fe ∈ files, ∀ dcm, read_dicom fe.parsed = some dcm →
      dcm.uidAttr "StudyInstanceUID" = .ok u := by
  induction files generalizing dd with
  | nil => intro fe hfe; cases hfe
  | cons fe rest ih =>
      rw [List.foldlM_cons, exceptBind_ok_iff] at hok
      obtain ⟨st1, hstep, hrest⟩ := hok
      obtain ⟨hfe, dd', hst1⟩ := cmrstudy_step_some_ok folder verbose u dd fe st1 hstep
      subst hst1
      intro fe' hfe' dcm hdcm
      rcases List.mem_cons.mp hfe' with h | h
      · subst h
        exact hfe dcm hdcm
      · exact ih dd' hrest fe' h dcm hdcm

theorem cmrstudy_fold_none_ok (folder : String) (verbose : Bool)
    (files : List FileEntry) (st' : Option (String × PyVal))
    (hok : files.foldlM (CMRStudy.processFile folder verbose) none = .ok st') :
    ∀ fe1 ∈ files, ∀ fe2 ∈ files, ∀ dcm1 dcm2,
      read_dicom fe1.parsed = some dcm1 → read_dicom fe2.parsed = some dcm2 →
      dcm1.uidAttr "StudyInstanceUID" = dcm2.uidAttr "StudyInstanceUID" := by
  induction files with
  | nil => intro fe1 hfe1; cases hfe1
  | cons fe rest ih =>
      rw [List.foldlM_cons, exceptBind_ok_iff] at hok
      obtain ⟨st1, hstep, hrest⟩ := hok
      cases hread : read_dicom fe.parsed with
      | none =>
          have hn := (cmrstudy_step_none_ok folder verbose fe st1 hstep).1 hread
          subst hn
          intro fe1 h1 fe2 h2 dcm1 dcm2 hd1 hd2
          rcases List.mem_cons.mp h1 with h1' | h1' <;>
            rcases List.mem_cons.mp h2 with h2' | h2'
          · subst h1'; rw [hread] at hd1; cases hd1
          · subst h1'; rw [hread] at hd1; cases hd1
          · subst h2'; rw [hread] at hd2; cases hd2
          · exact ih hrest fe1 h1' fe2 h2' dcm1 dcm2 hd1 hd2
      | some dcm =>
          obtain ⟨u, dd', huid, hst1⟩ :=
            (cmrstudy_step_none_ok folder verbose fe st1 hstep).2 dcm hread
          subst hst1
          have hall := cmrstudy_fold_some_ok folder verbose rest u dd' st' hrest
          have key : ∀ fe' ∈ fe :: rest, ∀ d, read_dicom fe'.parsed = some d →
              d.uidAttr "StudyInstanceUID" = .ok u := by
            intro fe' hm d hd
            rcases List.mem_cons.mp hm with hm' | hm'
            · subst hm'
              rw [hread] at hd
              injection hd with hd
              subst hd
              exact huid
            · exact hall fe' hm' d hd
          intro fe1 h1 fe2 h2 dcm1 dcm2 hd1 hd2
          rw [key fe1 h1 dcm1 hd1, key fe2 h2 dcm2 hd2]

theorem alGet_map_tags_of_mem (TAGS : List String) (f : String → PyVal)
    (k : String) (h : k ∈ TAGS) :
    alGet (TAGS.map (fun t => (t, f t))) k = some (f k) := by
  induction TAGS with
  | nil => cases h
  | cons t rest ih =>
      by_cases ht : t = k
      · subst ht
        simp only [List.map_cons, alGet, eq_self_iff_true, if_true]
      · rcases List.mem_cons.mp h with h' | h'
        · exact absurd h'.symm ht
        · simp only [List.map_cons, alGet]
          rw [if_neg ht]
          exact ih h'

theorem newTagOf_lookup_of_ne (root path : String) (dcm : Dataset) (k : String)
    (hk1 : k ≠ "Filename") (hk2 : k ≠ "ImageOrientationPatient")
    (hk3 : k ≠ "ImagePositionPatient") (hkmem : k ∈ DicomDir.ALL_TAGS) :
    alGet (DicomDir.newTagOf root path dcm) k = some (dcm.attrOrNone k) := by
  simp only [DicomDir.newTagOf]
  have hbase : alGet (DicomDir.ALL_TAGS.map (fun t => (t, dcm.attrOrNone t))) k =
      some (dcm.attrOrNone k) := alGet_map_tags_of_mem _ _ _ hkmem
  have h1 : alGet (alSet (DicomDir.ALL_TAGS.map (fun t => (t, dcm.attrOrNone t)))
      "Filename" (.pstr (pyReplace path root))) k =
      some (dcm.attrOrNone k) := by
    rw [alGet_alSet_ne _ _ _ _ (fun h => hk1 h.symm)]
    exact hbase
  by_cases c1 : alGetD (alSet (DicomDir.ALL_TAGS.map (fun t => (t, dcm.attrOrNone t)))
      "Filename" (.pstr (pyReplace path root))) "ImageOrientationPatient" .pnone = .pnone
  · rw [if_pos c1]
    by_cases c3 : alGetD (alSet (alSet (DicomDir.ALL_TAGS.map (fun t => (t, dcm.attrOrNone t)))
        "Filename" (.pstr (pyReplace path root))) "ImageOrientationPatient"
        (dcm.attrOrNone "ImageOrientation")) "ImagePositionPatient" .pnone = .pnone
    · rw [if_pos c3, alGet_alSet_ne _ _ _ _ (fun h => hk3 h.symm),
          alGet_alSet_ne _ _ _ _ (fun h => hk2 h.symm)]
      exact h1
    · rw [if_neg c3, alGet_alSet_ne _ _ _ _ (fun h => hk2 h.symm)]
      exact h1
  · rw [if_neg c1]
    by_cases c3 : alGetD (alSet (DicomDir.ALL_TAGS.map (fun t => (t, dcm.attrOrNone t)))
        "Filename" (.pstr (pyReplace path root))) "ImagePositionPatient" .pnone = .pnone
    · rw [if_pos c3, alGet_alSet_ne _ _ _ _ (fun h => hk3 h.symm)]
      exact h1
    · rw [if_neg c3]
      exact h1

theorem dedup_length_ne_one {α : Type} [DecidableEq α] (l : List α) (a b : α)
    (ha : a ∈ l) (hb : b ∈ l) (hab : a ≠ b) : l.dedup.length ≠ 1 := by
  intro h
  obtain ⟨x, hx⟩ := List.length_eq_one.mp h
  have ha' := List.mem_dedup.mpr ha
  have hb' := List.mem_dedup.mpr hb
  rw [hx] at ha' hb'
  simp only [List.mem_singleton] at ha' hb'
  exact hab (ha'.trans hb'.symm)

theorem dicomdir_scan_distinct_values_err (root : String) (files : List FileEntry)
    (fe1 fe2 : FileEntry) (dcm1 dcm2 : Dataset) (tag : String)
    (h1 : fe1 ∈ files) (h2 : fe2 ∈ files)
    (hr1 : read_dicom fe1.parsed = some dcm1)
    (hr2 : read_dicom fe2.parsed = some dcm2)
    (htag : tag = "StudyInstanceUID" ∨ tag = "PatientID")
    (hne : dcm1.attrOrNone tag ≠ dcm2.attrOrNone tag) :
    DicomDir.scan root files = .error (.assertionError "") := by
  have hm1 : DicomDir.newTagOf root fe1.path dcm1 ∈ files.filterMap (fun fe =>
      (read_dicom fe.parsed).map (fun dcm => DicomDir.newTagOf root fe.path dcm)) :=
    List.mem_filterMap.mpr ⟨fe1, h1, by rw [hr1]; rfl⟩
  have hm2 : DicomDir.newTagOf root fe2.path dcm2 ∈ files.filterMap (fun fe =>
      (read_dicom fe.parsed).map (fun dcm => DicomDir.newTagOf root fe.path dcm)) :=
    List.mem_filterMap.mpr ⟨fe2, h2, by rw [hr2]; rfl⟩
  rcases htag with htag | htag <;> subst htag
  · have hval1 : alGetD (DicomDir.newTagOf root fe1.path dcm1) "StudyInstanceUID" .pnone =
        dcm1.attrOrNone "StudyInstanceUID" := by
      unfold alGetD
      rw [newTagOf_lookup_of_ne root fe1.path dcm1 "StudyInstanceUID"
        (by decide) (by decide) (by decide) (by decide)]
      rfl
    have hval2 : alGetD (DicomDir.newTagOf root fe2.path dcm2) "StudyInstanceUID" .pnone =
        dcm2.attrOrNone "StudyInstanceUID" := by
      unfold alGetD
      rw [newTagOf_lookup_of_ne root fe2.path dcm2 "StudyInstanceUID"
        (by decide) (by decide) (by decide) (by decide)]
      rfl
    have hmm1 : dcm1.attrOrNone "StudyInstanceUID" ∈ (files.filterMap (fun fe =>
        (read_dicom fe.parsed).map (fun dcm => DicomDir.newTagOf root fe.path dcm))).map
        (fun t => alGetD t "StudyInstanceUID" .pnone) :=
      List.mem_map.mpr ⟨_, hm1, hval1⟩
    have hmm2 : dcm2.attrOrNone "StudyInstanceUID" ∈ (files.filterMap (fun fe =>
        (read_dicom fe.parsed).map (fun dcm => DicomDir.newTagOf root fe.path dcm))).map
        (fun t => alGetD t "StudyInstanceUID" .pnone) :=
      List.mem_map.mpr ⟨_, hm2, hval2⟩
    have hlen := dedup_length_ne_one _ _ _ hmm1 hmm2 hne
    simp only [DicomDir.scan]
    rw [if_pos hlen]
    rfl
  · have hval1 : alGetD (DicomDir.newTagOf root fe1.path dcm1) "PatientID" .pnone =
        dcm1.attrOrNone "PatientID" := by
      unfold alGetD
      rw [newTagOf_lookup_of_ne root fe1.path dcm1 "PatientID"
        (by decide) (by decide) (by decide) (by decide)]
      rfl
    have hval2 : alGetD (DicomDir.newTagOf root fe2.path dcm2) "PatientID" .pnone =
        dcm2.attrOrNone "PatientID" := by
      unfold alGetD
      rw [newTagOf_lookup_of_ne root fe2.path dcm2 "PatientID"
        (by decide) (by decide) (by decide) (by decide)]
      rfl
    have hmm1 : dcm1.attrOrNone "PatientID" ∈ (files.filterMap (fun fe =>
        (read_dicom fe.parsed).map (fun dcm => DicomDir.newTagOf root fe.path dcm))).map
        (fun t => alGetD t "PatientID" .pnone) :=
      List.mem_map.mpr ⟨_, hm1, hval1⟩
    have hmm2 : dcm2.attrOrNone "PatientID" ∈ (files.filterMap (fun fe =>
        (read_dicom fe.parsed).map (fun dcm => DicomDir.newTagOf root fe.path dcm))).map
        (fun t => alGetD t "PatientID" .pnone) :=
      List.mem_map.mpr ⟨_, hm2, hval2⟩
    have hlen := dedup_length_ne_one _ _ _ hmm1 hmm2 hne
    simp only [DicomDir.scan]
    by_cases hs : ((files.filterMap (fun fe =>
        (read_dicom fe.parsed).map (fun dcm => DicomDir.newTagOf root fe.path dcm))).map
        (fun t => alGetD t "StudyInstanceUID" .pnone)).dedup.length ≠ 1
    · rw [if_pos hs]
      rfl
    · rw [if_neg hs]
      simp only [pureExcept, exceptBind_ok]
      rw [if_pos hlen]
      rfl

/-- C2 (amended).  In single-study mode: (1) for every folder whose
recognizable files carry two different StudyInstanceUID values,
`CMRStudy.from_folder` fails fatally (no catalog is returned); (2)
`DicomDir.scan` fails fatally when two recognizable files disagree on
StudyInstanceUID, and (3) also when they disagree on PatientID; (4) on a
two-file folder with different StudyInstanceUIDs `CMRStudy.from_folder`
fails precisely with the multiple-studies assertion.  (`CMRStudy` performs
no PatientID check at all — see the counterexample.) -/
theorem multiple_studies_behaviour :
    (∀ (folder : String) (verbose : Bool) (files : List FileEntry)
       (fe1 fe2 : FileEntry) (dcm1 dcm2 : Dataset) (u1 u2 : String),
      fe1 ∈ files → fe2 ∈ files →
      read_dicom fe1.parsed = some dcm1 → read_dicom fe2.parsed = some dcm2 →
      dcm1.uidAttr "StudyInstanceUID" = .ok u1 →
      dcm2.uidAttr "StudyInstanceUID" = .ok u2 → u1 ≠ u2 →
      ∃ e, CMRStudy.from_folder folder verbose files = .error e) ∧
    (∀ (root : String) (files : List FileEntry) (fe1 fe2 : FileEntry)
       (dcm1 dcm2 : Dataset),
      fe1 ∈ files → fe2 ∈ files →
      read_dicom fe1.parsed = some dcm1 → read_dicom fe2.parsed = some dcm2 →
      dcm1.attrOrNone "StudyInstanceUID" ≠ dcm2.attrOrNone "StudyInstanceUID" →
      DicomDir.scan root files = .error (.assertionError "")) ∧
    (∀ (root : String) (files : List FileEntry) (fe1 fe2 : FileEntry)
       (dcm1 dcm2 : Dataset),
      fe1 ∈ files → fe2 ∈ files →
      read_dicom fe1.parsed = some dcm1 → read_dicom fe2.parsed = some dcm2 →
      dcm1.attrOrNone "PatientID" ≠ dcm2.attrOrNone "PatientID" →
      DicomDir.scan root files = .error (.assertionError "")) ∧
    (∀ (folder : String) (fe1 fe2 : FileEntry) (dcm1 dcm2 : Dataset)
       (u1 u2 se sop : String),
      read_dicom fe1.parsed = some dcm1 → read_dicom fe2.parsed = some dcm2 →
      dcm1.uidAttr "StudyInstanceUID" = .ok u1 →
      dcm1.uidAttr "SeriesInstanceUID" = .ok se →
      dcm1.uidAttr "SOPInstanceUID" = .ok sop →
      dcm2.uidAttr "StudyInstanceUID" = .ok u2 → u2 ≠ u1 →
      CMRStudy.from_folder folder false [fe1, fe2] =
        .error (.assertionError multipleStudiesMsg)) := by
  refine ⟨?_, ?_, ?_, ?_⟩
  · intro folder verbose files fe1 fe2 dcm1 dcm2 u1 u2 h1 h2 hr1 hr2 hu1 hu2 hne
    cases hres : CMRStudy.from_folder folder verbose files with
    | error e => exact ⟨e, rfl⟩
    | ok R =>
        exfalso
        unfold CMRStudy.from_folder at hres
        rw [exceptBind_ok_iff] at hres
        obtain ⟨st', hfold, _⟩ := hres
        have hagree := cmrstudy_fold_none_ok folder verbose files st' hfold
          fe1 h1 fe2 h2 dcm1 dcm2 hr1 hr2
        rw [hu1, hu2] at hagree
        injection hagree with hagree
        exact hne hagree
  · intro root files fe1 fe2 dcm1 dcm2 h1 h2 hr1 hr2 hne
    exact dicomdir_scan_distinct_values_err root files fe1 fe2 dcm1 dcm2
      "StudyInstanceUID" h1 h2 hr1 hr2 (Or.inl rfl) hne
  · intro root files fe1 fe2 dcm1 dcm2 h1 h2 hr1 hr2 hne
    exact dicomdir_scan_distinct_values_err root files fe1 fe2 dcm1 dcm2
      "PatientID" h1 h2 hr1 hr2 (Or.inr rfl) hne
  · intro folder fe1 fe2 dcm1 dcm2 u1 u2 se sop hr1 hr2 hu1 hse1 hsop1 hu2 hne
    unfold CMRStudy.from_folder
    rw [List.foldlM_cons,
        cmrstudy_processFile_first folder fe1 dcm1 u1 se sop hr1 hu1 hse1 hsop1,
        exceptBind_ok, List.foldlM_cons,
        cmrstudy_processFile_wrong_study folder false fe2 dcm2 u1 u2 _ hr2 hu2 hne]
    rfl

/-- A concrete file in study 1.2.3, patient P1. -/
def msFileA : FileEntry :=
  ⟨"/r/a.dcm",
   { fileMeta := [],
     elems := [("StudyInstanceUID", .pstr "1.2.3"),
               ("SeriesInstanceUID", .pstr "1.2.3.4"),
               ("SOPInstanceUID", .pstr "1.2.3.4.5"),
               ("PatientID", .pstr "P1")] }⟩

/-- A concrete file in a different study 9.9.9, same patient P1. -/
def msFileB : FileEntry :=
  ⟨"/r/b.dcm",
   { fileMeta := [],
     elems := [("StudyInstanceUID", .pstr "9.9.9"),
               ("SeriesInstanceUID", .pstr "9.9.9.4"),
               ("SOPInstanceUID", .pstr "9.9.9.4.5"),
               ("PatientID", .pstr "P1")] }⟩

/-- A concrete file in study 1.2.3 with patient P1. -/
def psFileA : FileEntry :=
  ⟨"/r/p1.dcm",
   { fileMeta := [],
     elems := [("StudyInstanceUID", .pstr "1.2.3"),
               ("SeriesInstanceUID", .pstr "1.2.3.4"),
               ("SOPInstanceUID", .pstr "1.2.3.4.5"),
               ("PatientID", .pstr "P1")] }⟩

/-- A concrete file in the same study 1.2.3 but with patient P2. -/
def psFileB : FileEntry :=
  ⟨"/r/p2.dcm",
   { fileMeta := [],
     elems := [("StudyInstanceUID", .pstr "1.2.3"),
               ("SeriesInstanceUID", .pstr "1.2.3.4"),
               ("SOPInstanceUID", .pstr "1.2.3.4.6"),
               ("PatientID", .pstr "P2")] }⟩

/-- `psFileA` after `read_dicom`. -/
def psDcmA : Dataset :=
  { fileMeta := [("TransferSyntaxUID", implicitVRLittleEndian)],
    elems := [("StudyInstanceUID", .pstr "1.2.3"),
              ("SeriesInstanceUID", .pstr "1.2.3.4"),
              ("SOPInstanceUID", .pstr "1.2.3.4.5"),
              ("PatientID", .pstr "P1")] }

/-- `psFileB` after `read_dicom`. -/
def psDcmB : Dataset :=
  { fileMeta := [("TransferSyntaxUID", implicitVRLittleEndian)],
    elems := [("StudyInstanceUID", .pstr "1.2.3"),
              ("SeriesInstanceUID", .pstr "1.2.3.4"),
              ("SOPInstanceUID", .pstr "1.2.3.4.6"),
              ("PatientID", .pstr "P2")] }

/-- `msFileA` after `read_dicom`. -/
def msDcmA : Dataset :=
  { fileMeta := [("TransferSyntaxUID", implicitVRLittleEndian)],
    elems := [("StudyInstanceUID", .pstr "1.2.3"),
              ("SeriesInstanceUID", .pstr "1.2.3.4"),
              ("SOPInstanceUID", .pstr "1.2.3.4.5"),
              ("PatientID", .pstr "P1")] }

/-- `msFileB` after `read_dicom`. -/
def msDcmB : Dataset :=
  { fileMeta := [("TransferSyntaxUID", implicitVRLittleEndian)],
    elems := [("StudyInstanceUID", .pstr "9.9.9"),
              ("SeriesInstanceUID", .pstr "9.9.9.4"),
              ("SOPInstanceUID", .pstr "9.9.9.4.5"),
              ("PatientID", .pstr "P1")] }

/-- Witness for C2 (amended) at concrete two-file folders. -/
theorem multiple_studies_behaviour_witness :
    (∃ e, CMRStudy.from_folder "/r" false [msFileA, msFileB] = .error e) ∧
    DicomDir.scan "/r" [msFileA, msFileB] = .error (.assertionError "") ∧
    DicomDir.scan "/r" [psFileA, psFileB] = .error (.assertionError "") ∧
    CMRStudy.from_folder "/r" false [msFileA, msFileB] =
      .error (.assertionError multipleStudiesMsg) := by
  refine ⟨?_, ?_, ?_, ?_⟩
  · exact multiple_studies_behaviour.1 "/r" false [msFileA, msFileB]
      msFileA msFileB msDcmA msDcmB "1.2.3" "9.9.9"
      (by decide) (by decide) rfl rfl rfl rfl (by decide)
  · exact multiple_studies_behaviour.2.1 "/r" [msFileA, msFileB]
      msFileA msFileB msDcmA msDcmB (by decide) (by decide) rfl rfl (by decide)
  · exact multiple_studies_behaviour.2.2.1 "/r" [psFileA, psFileB]
      psFileA psFileB psDcmA psDcmB (by decide) (by decide) rfl rfl (by decide)
  · exact multiple_studies_behaviour.2.2.2 "/r" msFileA msFileB msDcmA msDcmB
      "1.2.3" "9.9.9" "1.2.3.4" "1.2.3.4.5" rfl rfl rfl rfl rfl rfl (by decide)

/-- C2 counterexample.  A folder whose two recognizable files share one
StudyInstanceUID but carry two distinct PatientID values is scanned
successfully by the single-study `CMRStudy.from_folder` — no
multiple-studies error is raised, because `CMRStudy` never checks
PatientID. -/
theorem cmrstudy_ignores_patient_id_counterexample :
    (∃ S, CMRStudy.from_folder "/r" false [psFileA, psFileB] = .ok S) ∧
    read_dicom psFileA.parsed = some psDcmA ∧
    read_dicom psFileB.parsed = some psDcmB ∧
    psDcmA.attrOrNone "PatientID" = .pstr "P1" ∧
    psDcmB.attrOrNone "PatientID" = .pstr "P2" ∧
    (PyVal.pstr "P1" ≠ PyVal.pstr "P2") ∧
    psDcmA.attrOrNone "StudyInstanceUID" = psDcmB.attrOrNone "StudyInstanceUID" :=
  ⟨⟨_, rfl⟩, rfl, rfl, rfl, rfl, by decide, rfl⟩

theorem newTagOf_fallback (root path : String) (dcm : Dataset) :
    alGetD (DicomDir.newTagOf root path dcm) "ImageOrientationPatient" .pnone =
      (if dcm.attrOrNone "ImageOrientationPatient" = .pnone then
        dcm.attrOrNone "ImageOrientation"
      else dcm.attrOrNone "ImageOrientationPatient") ∧
    alGetD (DicomDir.newTagOf root path dcm) "ImagePositionPatient" .pnone =
      (if dcm.attrOrNone "ImagePositionPatient" = .pnone then
        dcm.attrOrNone "ImagePosition"
      else dcm.attrOrNone "ImagePositionPatient") := by
  have hIOP1 : alGet (alSet (DicomDir.ALL_TAGS.map (fun t => (t, dcm.attrOrNone t)))
      "Filename" (.pstr (pyReplace path root))) "ImageOrientationPatient" =
      some (dcm.attrOrNone "ImageOrientationPatient") := by
    rw [alGet_alSet_ne _ _ _ _ (by decide)]
    exact alGet_map_tags_of_mem _ _ _ (by decide)
  have hIPP1 : alGet (alSet (DicomDir.ALL_TAGS.map (fun t => (t, dcm.attrOrNone t)))
      "Filename" (.pstr (pyReplace path root))) "ImagePositionPatient" =
      some (dcm.attrOrNone "ImagePositionPatient") := by
    rw [alGet_alSet_ne _ _ _ _ (by decide)]
    exact alGet_map_tags_of_mem _ _ _ (by decide)
  have heq1 : alGetD (alSet (DicomDir.ALL_TAGS.map (fun t => (t, dcm.attrOrNone t)))
      "Filename" (.pstr (pyReplace path root))) "ImageOrientationPatient" .pnone =
      dcm.attrOrNone "ImageOrientationPatient" := by
    unfold alGetD
    rw [hIOP1]
    rfl
  have heq2 : alGetD (alSet (DicomDir.ALL_TAGS.map (fun t => (t, dcm.attrOrNone t)))
      "Filename" (.pstr (pyReplace path root))) "ImagePositionPatient" .pnone =
      dcm.attrOrNone "ImagePositionPatient" := by
    unfold alGetD
    rw [hIPP1]
    rfl
  simp only [DicomDir.newTagOf, heq1]
  by_cases hio : dcm.attrOrNone "ImageOrientationPatient" = .pnone
  · rw [if_pos hio]
    have hIOP2 : alGet (alSet (alSet (DicomDir.ALL_TAGS.map (fun t => (t, dcm.attrOrNone t)))
        "Filename" (.pstr (pyReplace path root))) "ImageOrientationPatient"
        (dcm.attrOrNone "ImageOrientation")) "ImagePositionPatient" =
        some (dcm.attrOrNone "ImagePositionPatient") := by
      rw [alGet_alSet_ne _ _ _ _ (by decide)]
      exact hIPP1
    have heq2' : alGetD (alSet (alSet (DicomDir.ALL_TAGS.map (fun t => (t, dcm.attrOrNone t)))
        "Filename" (.pstr (pyReplace path root))) "ImageOrientationPatient"
        (dcm.attrOrNone "ImageOrientation")) "ImagePositionPatient" .pnone =
        dcm.attrOrNone "ImagePositionPatient" := by
      unfold alGetD
      rw [hIOP2]
      rfl
    simp only [heq2']
    by_cases hip : dcm.attrOrNone "ImagePositionPatient" = .pnone
    · rw [if_pos hip, if_pos hip, if_pos hio]
      constructor
      · unfold alGetD
        rw [alGet_alSet_ne _ _ _ _ (by decide), alGet_alSet_self]
        rfl
      · unfold alGetD
        rw [alGet_alSet_self]
        rfl
    · rw [if_neg hip, if_neg hip, if_pos hio]
      constructor
      · unfold alGetD
        rw [alGet_alSet_self]
        rfl
      · unfold alGetD
        rw [alGet_alSet_ne _ _ _ _ (by decide), hIPP1]
        rfl
  · rw [if_neg hio]
    simp only [heq2]
    by_cases hip : dcm.attrOrNone "ImagePositionPatient" = .pnone
    · rw [if_pos hip, if_pos hip, if_neg hio]
      constructor
      · unfold alGetD
        rw [alGet_alSet_ne _ _ _ _ (by decide), hIOP1]
        rfl
      · unfold alGetD
        rw [alGet_alSet_self]
        rfl
    · rw [if_neg hip, if_neg hip, if_neg hio]
      exact ⟨heq1, heq2⟩

theorem dicomdir_scan_provenance (root : String) (files : List FileEntry)
    (res : DicomDir) (hscan : DicomDir.scan root files = .ok res) :
    ∀ ser ∈ res.series, ∀ img ∈ ser.images,
      ∃ fe ∈ files, ∃ dcm, read_dicom fe.parsed = some dcm ∧
        img = (["Filename"] ++ DicomDir.IMAGE_TAGS).map
          (fun t => (t, alGetD (DicomDir.newTagOf root fe.path dcm) t .pnone)) := by
  intro ser hser img himg
  simp only [DicomDir.scan] at hscan
  by_cases hc1 : ((files.filterMap (fun fe =>
      (read_dicom fe.parsed).map (fun dcm => DicomDir.newTagOf root fe.path dcm))).map
      (fun t => alGetD t "StudyInstanceUID" .pnone)).dedup.length ≠ 1
  · rw [if_pos hc1] at hscan
    simp only [throwExcept, exceptBind_error] at hscan
    cases hscan
  · rw [if_neg hc1] at hscan
    simp only [pureExcept, exceptBind_ok] at hscan
    by_cases hc2 : ((files.filterMap (fun fe =>
        (read_dicom fe.parsed).map (fun dcm => DicomDir.newTagOf root fe.path dcm))).map
        (fun t => alGetD t "PatientID" .pnone)).dedup.length ≠ 1
    · rw [if_pos hc2] at hscan
      simp only [throwExcept, exceptBind_error] at hscan
      cases hscan
    · rw [if_neg hc2] at hscan
      try simp only [pureExcept, exceptBind_ok] at hscan
      cases hat : files.filterMap (fun fe =>
          (read_dicom fe.parsed).map (fun dcm => DicomDir.newTagOf root fe.path dcm)) with
      | nil =>
          rw [hat] at hscan
          simp only [throwExcept] at hscan
          cases hscan
      | cons t0 rest =>
          rw [hat] at hscan
          simp only [pureExcept, Except.ok.injEq] at hscan
          subst hscan
          simp only at hser
          obtain ⟨key, hkey, hmatch⟩ := List.mem_filterMap.mp hser
          cases hfil : (t0 :: rest).filter (fun t =>
              decide (alGetD t "SeriesInstanceUID" .pnone = key.1 ∧
                      alGetD t "SeriesNumber" .pnone = key.2)) with
          | nil =>
              rw [hfil] at hmatch
              cases hmatch
          | cons s0 r' =>
              rw [hfil] at hmatch
              injection hmatch with hmatch
              subst hmatch
              simp only at himg
              obtain ⟨ss, hss, himg'⟩ := List.mem_map.mp himg
              subst himg'
              rw [← hfil] at hss
              have hssAT : ss ∈ t0 :: rest := (List.mem_filter.mp hss).1
              rw [← hat] at hssAT
              obtain ⟨fe, hfe, hmap⟩ := List.mem_filterMap.mp hssAT
              cases hread : read_dicom fe.parsed with
              | none =>
                  rw [hread] at hmap
                  cases hmap
              | some dcm =>
                  rw [hread] at hmap
                  injection hmap with hmap
                  subst hmap
                  exact ⟨fe, hfe, dcm, hread, rfl⟩

/-- C7.  Every image stored by a successful `DicomDir.scan` originates from
a recognized file, and its `ImageOrientationPatient` / `ImagePositionPatient`
entries obey the fallback: if the file does not expose the Patient-qualified
tag, the entry is populated with the unqualified `ImageOrientation` /
`ImagePosition` attribute (so `None` is stored only when both variants are
absent); if the Patient-qualified tag is exposed, its own value is stored. -/
theorem orientation_position_fallback (root : String) (files : List FileEntry)
    (res : DicomDir) (hscan : DicomDir.scan root files = .ok res) :
    ∀ ser ∈ res.series, ∀ img ∈ ser.images,
      ∃ fe ∈ files, ∃ dcm, read_dicom fe.parsed = some dcm ∧
        img = (["Filename"] ++ DicomDir.IMAGE_TAGS).map
          (fun t => (t, alGetD (DicomDir.newTagOf root fe.path dcm) t .pnone)) ∧
        (dcm.attrOrNone "ImageOrientationPatient" = .pnone →
          alGetD img "ImageOrientationPatient" .pnone = dcm.attrOrNone "ImageOrientation") ∧
        (dcm.attrOrNone "ImageOrientationPatient" ≠ .pnone →
          alGetD img "ImageOrientationPatient" .pnone = dcm.attrOrNone "ImageOrientationPatient") ∧
        (dcm.attrOrNone "ImagePositionPatient" = .pnone →
          alGetD img "ImagePositionPatient" .pnone = dcm.attrOrNone "ImagePosition") ∧
        (dcm.attrOrNone "ImagePositionPatient" ≠ .pnone →
          alGetD img "ImagePositionPatient" .pnone = dcm.attrOrNone "ImagePositionPatient") := by
  intro ser hser img himg
  obtain ⟨fe, hfe, dcm, hread, himgEq⟩ :=
    dicomdir_scan_provenance root files res hscan ser hser img himg
  subst himgEq
  have hpo : alGetD ((["Filename"] ++ DicomDir.IMAGE_TAGS).map
      (fun t => (t, alGetD (DicomDir.newTagOf root fe.path dcm) t .pnone)))
      "ImageOrientationPatient" .pnone =
      alGetD (DicomDir.newTagOf root fe.path dcm) "ImageOrientationPatient" .pnone := by
    unfold alGetD
    rw [alGet_map_tags_of_mem _ _ _ (by decide)]
    rfl
  have hpp : alGetD ((["Filename"] ++ DicomDir.IMAGE_TAGS).map
      (fun t => (t, alGetD (DicomDir.newTagOf root fe.path dcm) t .pnone)))
      "ImagePositionPatient" .pnone =
      alGetD (DicomDir.newTagOf root fe.path dcm) "ImagePositionPatient" .pnone := by
    unfold alGetD
    rw [alGet_map_tags_of_mem _ _ _ (by decide)]
    rfl
  refine ⟨fe, hfe, dcm, hread, rfl, ?_, ?_, ?_, ?_⟩
  · intro hio
    rw [hpo, (newTagOf_fallback root fe.path dcm).1, if_pos hio]
  · intro hio
    rw [hpo, (newTagOf_fallback root fe.path dcm).1, if_neg hio]
  · intro hip
    rw [hpp, (newTagOf_fallback root fe.path dcm).2, if_pos hip]
  · intro hip
    rw [hpp, (newTagOf_fallback root fe.path dcm).2, if_neg hip]

/-- A concrete file exposing only the unqualified orientation and position
tags (no Patient-qualified variants). -/
def oFile : FileEntry :=
  ⟨"/r/o.dcm",
   { fileMeta := [],
     elems := [("StudyInstanceUID", .pstr "1.2.3"),
               ("SeriesInstanceUID", .pstr "1.2.3.4"),
               ("SOPInstanceUID", .pstr "1.2.3.4.5"),
               ("PatientID", .pstr "P1"),
               ("ImageOrientation", .pmulti [1, 0, 0, 0, 1, 0]),
               ("ImagePosition", .pmulti [5, 6, 7])] }⟩

/-- `oFile` after `read_dicom`. -/
def oDcm : Dataset :=
  { fileMeta := [("TransferSyntaxUID", implicitVRLittleEndian)],
    elems := [("StudyInstanceUID", .pstr "1.2.3"),
              ("SeriesInstanceUID", .pstr "1.2.3.4"),
              ("SOPInstanceUID", .pstr "1.2.3.4.5"),
              ("PatientID", .pstr "P1"),
              ("ImageOrientation", .pmulti [1, 0, 0, 0, 1, 0]),
              ("ImagePosition", .pmulti [5, 6, 7])] }

/-- The catalog produced by scanning the one-file folder `[oFile]`. -/
def resO : DicomDir := (DicomDir.scan "/r" [oFile]).toOption.getD ⟨"", [], []⟩

/-- Its only series. -/
def serO : DSeries := resO.series.getD 0 ⟨[], []⟩

/-- Its only image dict. -/
def imgO : List (String × PyVal) := serO.images.getD 0 []

/-- Witness for C7 at a concrete input: the stored image's
`ImageOrientationPatient` / `ImagePositionPatient` entries carry the
unqualified tags' values. -/
theorem orientation_position_fallback_witness :
    (DicomDir.scan "/r" [oFile] = .ok resO ∧ serO ∈ resO.series ∧ imgO ∈ serO.images ∧
     alGetD imgO "ImageOrientationPatient" .pnone = .pmulti [1, 0, 0, 0, 1, 0] ∧
     alGetD imgO "ImagePositionPatient" .pnone = .pmulti [5, 6, 7] ∧
     oDcm.attrOrNone "ImageOrientationPatient" = .pnone) ∧
    (∃ fe ∈ [oFile], ∃ dcm, read_dicom fe.parsed = some dcm ∧
      imgO = (["Filename"] ++ DicomDir.IMAGE_TAGS).map
        (fun t => (t, alGetD (DicomDir.newTagOf "/r" fe.path dcm) t .pnone)) ∧
      (dcm.attrOrNone "ImageOrientationPatient" = .pnone →
        alGetD imgO "ImageOrientationPatient" .pnone = dcm.attrOrNone "ImageOrientation") ∧
      (dcm.attrOrNone "ImageOrientationPatient" ≠ .pnone →
        alGetD imgO "ImageOrientationPatient" .pnone = dcm.attrOrNone "ImageOrientationPatient") ∧
      (dcm.attrOrNone "ImagePositionPatient" = .pnone →
        alGetD imgO "ImagePositionPatient" .pnone = dcm.attrOrNone "ImagePosition") ∧
      (dcm.attrOrNone "ImagePositionPatient" ≠ .pnone →
        alGetD imgO "ImagePositionPatient" .pnone = dcm.attrOrNone "ImagePositionPatient")) :=
  ⟨⟨rfl, by decide, by decide, rfl, rfl, rfl⟩,
   orientation_position_fallback "/r" [oFile] resO rfl serO (by decide) imgO (by decide)⟩

/-- Python `pat in s` (substring occurrence) on character lists. -/
def listHasInfix (pat : List Char) : List Char → Bool
  | [] => pat.isEmpty
  | c :: rest => pat.isPrefixOf (c :: rest) || listHasInfix pat rest

theorem replaceAllAux_cons_step (pat : List Char) (fuel : Nat) (c : Char)
    (cs : List Char) :
    replaceAllAux pat (fuel + 1) (c :: cs) =
      if pat ≠ [] ∧ pat.isPrefixOf (c :: cs) then
        replaceAllAux pat fuel ((c :: cs).drop pat.length)
      else c :: replaceAllAux pat fuel cs := rfl

theorem replaceAllAux_no_occurrence (pat : List Char) (l : List Char)
    (fuel : Nat) (hfuel : l.length ≤ fuel) (h : listHasInfix pat l = false) :
    replaceAllAux pat fuel l = l := by
  induction l generalizing fuel with
  | nil => cases fuel <;> rfl
  | cons c rest ih =>
      cases fuel with
      | zero =>
          simp only [List.length_cons] at hfuel
          omega
      | succ n =>
          simp only [listHasInfix, Bool.or_eq_false_iff] at h
          rw [replaceAllAux_cons_step]
          rw [if_neg (fun hc => by rw [h.1] at hc; exact absurd hc.2 (by simp))]
          simp only [List.length_cons] at hfuel
          exact congrArg (fun t => c :: t) (ih n (by omega) h.2)

theorem replaceAll_strip_prefix (pat rest : List Char) (hne : pat ≠ [])
    (h : listHasInfix pat rest = false) :
    replaceAllAux pat (pat ++ rest).length (pat ++ rest) = rest := by
  cases hp : pat with
  | nil => exact absurd hp hne
  | cons p ps =>
      subst hp
      simp only [List.cons_append, List.length_cons, List.length_append]
      rw [replaceAllAux_cons_step]
      have hpre : (p :: ps).isPrefixOf (p :: (ps ++ rest)) = true := by
        have h2 := List.isPrefixOf_iff_prefix.mpr (List.prefix_append (p :: ps) rest)
        simp only [List.cons_append] at h2
        exact h2
      rw [if_pos ⟨hne, hpre⟩]
      have hdrop : ((p :: ps) ++ rest).drop (p :: ps).length = rest :=
        List.drop_left (p :: ps) rest
      simp only [List.cons_append] at hdrop
      rw [hdrop]
      exact replaceAllAux_no_occurrence _ _ _ (by omega) h

theorem pyReplace_strip (pat rest : String) (hne : pat.data ≠ [])
    (h : listHasInfix pat.data rest.data = false) :
    pyReplace (pat ++ rest) pat = rest := by
  unfold pyReplace
  have hd : (pat ++ rest).data = pat.data ++ rest.data := by
    cases pat
    cases rest
    rfl
  rw [hd, replaceAll_strip_prefix pat.data rest.data hne h]

theorem newTagOf_filename (root path : String) (dcm : Dataset) :
    alGetD (DicomDir.newTagOf root path dcm) "Filename" .pnone =
      .pstr (pyReplace path root) := by
  simp only [DicomDir.newTagOf]
  have hbase : alGetD (alSet (DicomDir.ALL_TAGS.map (fun t => (t, dcm.attrOrNone t)))
      "Filename" (.pstr (pyReplace path root))) "Filename" .pnone =
      .pstr (pyReplace path root) := by
    unfold alGetD
    rw [alGet_alSet_self]
    rfl
  by_cases c1 : alGetD (alSet (DicomDir.ALL_TAGS.map (fun t => (t, dcm.attrOrNone t)))
      "Filename" (.pstr (pyReplace path root))) "ImageOrientationPatient" .pnone = .pnone
  · rw [if_pos c1]
    by_cases c3 : alGetD (alSet (alSet (DicomDir.ALL_TAGS.map (fun t => (t, dcm.attrOrNone t)))
        "Filename" (.pstr (pyReplace path root))) "ImageOrientationPatient"
        (dcm.attrOrNone "ImageOrientation")) "ImagePositionPatient" .pnone = .pnone
    · rw [if_pos c3]
      unfold alGetD
      rw [alGet_alSet_ne _ _ _ _ (by decide), alGet_alSet_ne _ _ _ _ (by decide),
          alGet_alSet_self]
      rfl
    · rw [if_neg c3]
      unfold alGetD
      rw [alGet_alSet_ne _ _ _ _ (by decide), alGet_alSet_self]
      rfl
  · rw [if_neg c1]
    by_cases c3 : alGetD (alSet (DicomDir.ALL_TAGS.map (fun t => (t, dcm.attrOrNone t)))
        "Filename" (.pstr (pyReplace path root))) "ImagePositionPatient" .pnone = .pnone
    · rw [if_pos c3]
      unfold alGetD
      rw [alGet_alSet_ne _ _ _ _ (by decide), alGet_alSet_self]
      rfl
    · rw [if_neg c3]
      exact hbase

theorem joinEmpty_data_ne_nil (root : String) : (joinEmpty root).data ≠ [] := by
  unfold joinEmpty
  by_cases h : root.data.getLast? = some '/'
  · rw [if_pos h]
    intro hnil
    rw [hnil] at h
    cases h
  · rw [if_neg h]
    intro hnil
    have hd : (root ++ "/").data = root.data ++ ['/'] := by
      cases root
      rfl
    rw [hd] at hnil
    simp at hnil

theorem exceptBindF_ok {α β : Type} (x : α) (f : α → Except PyErr β) :
    (Except.ok x : Except PyErr α).bind f = f x := rfl

/-- C8 (amended).  The stored `Filename` is the full path with every
occurrence of the root pattern deleted by `str.replace`, not a computed
relative path.  (1) When the pattern `root + "/"` occurs in the path only
as its leading prefix, `CMRDir`/`CMRStudy` store exactly the path relative
to the root with no leading separator; (2) `DicomDir` deletes occurrences
of `root` without the trailing separator, so even in the prefix-only case
its stored `Filename` keeps a leading separator; (3) a one-recognizable-file
`CMRDir.from_folder` stores that relative path as the instance's Filename;
(4) every image of a successful `DicomDir.scan` stores
`str.replace(path, root, "")` of some recognized file.  When the pattern
re-occurs later in the path, the stored name is not the relative path at
all (see the counterexample). -/
theorem stored_filename_behaviour :
    (∀ (root rest : String),
      listHasInfix (joinEmpty root).data rest.data = false →
      pyReplace (joinEmpty root ++ rest) (joinEmpty root) = rest) ∧
    (∀ (root rest : String), root.data ≠ [] →
      listHasInfix root.data ("/" ++ rest).data = false →
      pyReplace (root ++ ("/" ++ rest)) root = "/" ++ rest) ∧
    (∀ (root : String) (studyName : Option String) (quiet : Bool)
       (fe : FileEntry) (dcm : Dataset) (su se sop rest : String),
      read_dicom fe.parsed = some dcm →
      dcm.uidAttr "StudyInstanceUID" = .ok su →
      dcm.uidAttr "SeriesInstanceUID" = .ok se →
      dcm.uidAttr "SOPInstanceUID" = .ok sop →
      se ∉ CMRDir.STUDY_TAGS → sop ∉ CMRDir.SERIES_TAGS →
      fe.path = joinEmpty root ++ rest →
      listHasInfix (joinEmpty root).data rest.data = false →
      ∃ D, CMRDir.from_folder root studyName quiet [fe] = .ok D ∧
        ((pdGet D.dicomDir su).bind (fun sd =>
         (pdGet sd se).bind (fun sed =>
         (pdGet sed sop).bind (fun inst =>
         pdGet inst "Filename")))) = .ok (.pstr rest)) ∧
    (∀ (root : String) (files : List FileEntry) (res : DicomDir),
      DicomDir.scan root files = .ok res →
      ∀ ser ∈ res.series, ∀ img ∈ ser.images,
        ∃ fe ∈ files, ∃ dcm, read_dicom fe.parsed = some dcm ∧
          alGetD img "Filename" .pnone = .pstr (pyReplace fe.path root)) := by
  refine ⟨?_, ?_, ?_, ?_⟩
  · intro root rest hinf
    exact pyReplace_strip (joinEmpty root) rest (joinEmpty_data_ne_nil root) hinf
  · intro root rest hne hinf
    exact pyReplace_strip root ("/" ++ rest) hne hinf
  · intro root studyName quiet fe dcm su se sop rest hread hsu hse hsop hseT hsopT hpath hinf
    refine ⟨{ source := .pstr root,
              studyName := .pstr (studyName.getD (pyBasename root)),
              dicomDir := cmrdirCatalogDict su se sop dcm dcm (cmrdirInstance root fe.path dcm) }, ?_, ?_⟩
    · unfold CMRDir.from_folder
      rw [List.foldlM_cons,
          cmrdir_processFile_fresh root _ fe dcm su se sop hread hsu hse hsop rfl hseT hsopT]
      rfl
    · have h1 : alGet (CMRDir.STUDY_TAGS.map (fun s => (s, get_tag dcm s))) se = none :=
        alGet_map_tags_of_not_mem _ _ _ hseT
      have h2 : alGet (CMRDir.SERIES_TAGS.map (fun s => (s, get_tag dcm s))) sop = none :=
        alGet_map_tags_of_not_mem _ _ _ hsopT
      have h3 : alGet (CMRDir.INSTANCE_TAGS.map (fun s => (s, get_tag dcm s))) "Filename" = none :=
        alGet_map_tags_of_not_mem _ _ _ (by decide)
      simp only [cmrdirCatalogDict, cmrdirStudyDict, cmrdirSeriesDict, cmrdirInstance]
      rw [pdGet_pdict_of_some _ _ _ (alGet_cons_self _ _ _), exceptBindF_ok]
      rw [pdGet_pdict_of_some _ _ _ (by
        rw [alGet_append_of_none _ _ _ h1]
        exact alGet_cons_self _ _ _), exceptBindF_ok]
      rw [pdGet_pdict_of_some _ _ _ (by
        rw [alGet_append_of_none _ _ _ h2]
        exact alGet_cons_self _ _ _), exceptBindF_ok]
      rw [pdGet_pdict_of_some _ _ _ (by
        rw [alGet_append_of_none _ _ _ h3]
        exact alGet_cons_self _ _ _)]
      rw [hpath, pyReplace_strip (joinEmpty root) rest (joinEmpty_data_ne_nil root) hinf]
  · intro root files res hscan ser hser img himg
    obtain ⟨fe, hfe, dcm, hread, himgEq⟩ :=
      dicomdir_scan_provenance root files res hscan ser hser img himg
    subst himgEq
    refine ⟨fe, hfe, dcm, hread, ?_⟩
    have hp : alGetD ((["Filename"] ++ DicomDir.IMAGE_TAGS).map
        (fun t => (t, alGetD (DicomDir.newTagOf root fe.path dcm) t .pnone)))
        "Filename" .pnone =
        alGetD (DicomDir.newTagOf root fe.path dcm) "Filename" .pnone := by
      unfold alGetD
      rw [alGet_map_tags_of_mem _ _ _ (by decide)]
      rfl
    rw [hp, newTagOf_filename]

/-- A concrete recognizable file at `/r/x.dcm`. -/
def relFile : FileEntry :=
  ⟨"/r/x.dcm",
   { fileMeta := [],
     elems := [("StudyInstanceUID", .pstr "1.2.3"),
               ("SeriesInstanceUID", .pstr "1.2.3.4"),
               ("SOPInstanceUID", .pstr "1.2.3.4.5")] }⟩

/-- `relFile` after `read_dicom`. -/
def relDcm : Dataset :=
  { fileMeta := [("TransferSyntaxUID", implicitVRLittleEndian)],
    elems := [("StudyInstanceUID", .pstr "1.2.3"),
              ("SeriesInstanceUID", .pstr "1.2.3.4"),
              ("SOPInstanceUID", .pstr "1.2.3.4.5")] }

/-- Witness for C8 (amended) at concrete inputs. -/
theorem stored_filename_behaviour_witness :
    pyReplace (joinEmpty "/r" ++ "x.dcm") (joinEmpty "/r") = "x.dcm" ∧
    pyReplace ("/r" ++ ("/" ++ "x.dcm")) "/r" = "/" ++ "x.dcm" ∧
    (∃ D, CMRDir.from_folder "/r" (some "s") true [relFile] = .ok D ∧
      ((pdGet D.dicomDir "1.2.3").bind (fun sd =>
       (pdGet sd "1.2.3.4").bind (fun sed =>
       (pdGet sed "1.2.3.4.5").bind (fun inst =>
       pdGet inst "Filename")))) = .ok (.pstr "x.dcm")) ∧
    (∃ fe ∈ [oFile], ∃ dcm, read_dicom fe.parsed = some dcm ∧
      alGetD imgO "Filename" .pnone = .pstr (pyReplace fe.path "/r")) := by
  refine ⟨?_, ?_, ?_, ?_⟩
  · exact stored_filename_behaviour.1 "/r" "x.dcm" (by decide)
  · exact stored_filename_behaviour.2.1 "/r" "x.dcm" (by decide) (by decide)
  · exact stored_filename_behaviour.2.2.1 "/r" (some "s") true relFile relDcm
      "1.2.3" "1.2.3.4" "1.2.3.4.5" "x.dcm" rfl rfl rfl rfl
      (by decide) (by decide) rfl (by decide)
  · exact stored_filename_behaviour.2.2.2 "/r" [oFile] resO rfl serO (by decide)
      imgO (by decide)

/-- C8 counterexample.  With root `/a` and the file `/a/b/a/c`,
`CMRDir.from_folder` stores the Filename `bc`: `str.replace` deletes every
occurrence of `/a/`, not just the leading prefix, so the stored name is not
the path relative to the root (`b/a/c`). -/
theorem cmrdir_filename_not_relative_counterexample :
    ((CMRDir.from_folder "/a" (some "s") true
        [⟨"/a/b/a/c",
          { fileMeta := [],
            elems := [("StudyInstanceUID", .pstr "1.2.3"),
                      ("SeriesInstanceUID", .pstr "1.2.3.4"),
                      ("SOPInstanceUID", .pstr "1.2.3.4.5")] }⟩]).bind (fun D =>
      (pdGet D.dicomDir "1.2.3").bind (fun sd =>
      (pdGet sd "1.2.3.4").bind (fun sed =>
      (pdGet sed "1.2.3.4.5").bind (fun inst =>
      pdGet inst "Filename"))))) = .ok (.pstr "bc") ∧
    ("bc" : String) ≠ "b/a/c" :=
  ⟨rfl, by decide⟩

/-- A raw DICOM element value is scalar-like (no Python container): these
are the values `pydicom` produces for data elements, and exactly the ones
`get_tag` normalizes into JSON-serializable values. -/
def rawOk : PyVal → Bool
  | .plist _ => false
  | .pdict _ => false
  | _ => true

/-- Serializability: `json.dump` succeeds on the value. -/
def Ser (v : PyVal) : Prop := (encodeJ v).isSome = true

theorem encodeJDict_isSome_iff (l : List (String × PyVal)) :
    (encodeJDict l).isSome = true ↔ ∀ kv ∈ l, (encodeJ kv.2).isSome = true := by
  induction l with
  | nil => simp [encodeJDict]
  | cons kv rest ih =>
      obtain ⟨k, v⟩ := kv
      constructor
      · intro h
        simp only [encodeJDict] at h
        cases hv : encodeJ v with
        | none => rw [hv] at h; simp at h
        | some j =>
            cases hr : encodeJDict rest with
            | none => rw [hv, hr] at h; simp at h
            | some js =>
                intro kw hkw
                rcases List.mem_cons.mp hkw with h' | h'
                · subst h'
                  rw [hv]
                  rfl
                · exact ih.mp (by rw [hr]; rfl) kw h'
      · intro h
        simp only [encodeJDict]
        cases hv : encodeJ v with
        | none =>
            have := h (k, v) (by simp)
            rw [hv] at this
            simp at this
        | some j =>
            have hr := ih.mpr (fun kw hkw => h kw (by simp [hkw]))
            cases hrr : encodeJDict rest with
            | none => rw [hrr] at hr; simp at hr
            | some js => rfl

theorem ser_pdict_iff (l : List (String × PyVal)) :
    Ser (.pdict l) ↔ ∀ kv ∈ l, Ser kv.2 := by
  unfold Ser
  constructor
  · intro h
    simp only [encodeJ] at h
    cases hd : encodeJDict l with
    | none => rw [hd] at h; simp at h
    | some js => exact (encodeJDict_isSome_iff l).mp (by rw [hd]; rfl)
  · intro h
    simp only [encodeJ]
    have := (encodeJDict_isSome_iff l).mpr h
    cases hd : encodeJDict l with
    | none => rw [hd] at this; simp at this
    | some js => rfl

theorem alGet_mem (l : List (String × PyVal)) (k : String) (v : PyVal)
    (h : alGet l k = some v) : (k, v) ∈ l := by
  induction l with
  | nil => cases h
  | cons kv rest ih =>
      obtain ⟨k', v'⟩ := kv
      simp only [alGet] at h
      split at h
      next hk =>
        injection h with h
        subst hk
        subst h
        exact List.mem_cons_self _ _
      next hk =>
        exact List.mem_cons.mpr (Or.inr (ih h))

theorem mem_alSet (l : List (String × PyVal)) (k : String) (v : PyVal)
    (kv : String × PyVal) (h : kv ∈ alSet l k v) : kv = (k, v) ∨ kv ∈ l := by
  induction l with
  | nil =>
      simp only [alSet, List.mem_singleton] at h
      exact Or.inl h
  | cons kw rest ih =>
      obtain ⟨k', v'⟩ := kw
      simp only [alSet] at h
      split at h
      next hk =>
        rcases List.mem_cons.mp h with h' | h'
        · exact Or.inl h'
        · exact Or.inr (by simp [h'])
      next hk =>
        rcases List.mem_cons.mp h with h' | h'
        · exact Or.inr (by simp [h'])
        · rcases ih h' with h'' | h''
          · exact Or.inl h''
          · exact Or.inr (by simp [h''])

theorem ser_alSet (l : List (String × PyVal)) (k : String) (v : PyVal)
    (hl : Ser (.pdict l)) (hv : Ser v) : Ser (.pdict (alSet l k v)) := by
  rw [ser_pdict_iff] at hl ⊢
  intro kv hkv
  rcases mem_alSet l k v kv hkv with h | h
  · subst h
    exact hv
  · exact hl kv h

theorem encodeJList_map_pstr (xs : List String) :
    encodeJList (xs.map .pstr) = some (xs.map .jstr) := by
  induction xs with
  | nil => rfl
  | cons x rest ih => simp [encodeJList, encodeJ, ih]

theorem encodeJList_map_pfloat (xs : List Rat) :
    encodeJList (xs.map .pfloat) = some (xs.map .jnum) := by
  induction xs with
  | nil => rfl
  | cons x rest ih => simp [encodeJList, encodeJ, ih]

theorem ser_get_tag (dcm : Dataset) (t : String)
    (hraw : ∀ kv ∈ dcm.elems, rawOk kv.2 = true) : Ser (get_tag dcm t) := by
  unfold get_tag
  cases hg : alGet dcm.elems t with
  | none => exact rfl
  | some v =>
      have hv := hraw (t, v) (alGet_mem _ _ _ hg)
      cases v with
      | pnone => exact rfl
      | pstr s => exact rfl
      | pint n => exact rfl
      | pfloat x => exact rfl
      | pbytes s =>
          unfold Ser
          simp only [encodeJ, encodeJList_map_pstr]
          rfl
      | pmulti xs =>
          unfold Ser
          simp only [encodeJ, encodeJList_map_pfloat]
          rfl
      | pds x => exact rfl
      | plist xs => simp [rawOk] at hv
      | pdict l => simp [rawOk] at hv

theorem read_dicom_elems_eq (pf r : Dataset) (h : read_dicom pf = some r) :
    r.elems = pf.elems := by
  unfold read_dicom at h
  by_cases hm : alMem pf.fileMeta "TransferSyntaxUID"
  · rw [if_pos hm] at h
    simp only [] at h
    split at h
    · cases h
    · injection h with h
      subst h
      rfl
  · rw [if_neg hm] at h
    simp only [] at h
    split at h
    · cases h
    · injection h with h
      subst h
      rfl

theorem ser_pdGet (d : PyVal) (k : String) (v : PyVal)
    (hd : Ser d) (h : pdGet d k = Except.ok v) : Ser v := by
  cases d with
  | pnone => cases h
  | pstr s => cases h
  | pint n => cases h
  | pfloat x => cases h
  | pbytes s => cases h
  | pmulti xs => cases h
  | pds x => cases h
  | plist xs => cases h
  | pdict l => ?_
  have he : pdGet (.pdict l) k =
      (match alGet l k with
       | some w => Except.ok w
       | none => Except.error (.keyError k)) := rfl
  rw [he] at h
  cases hg : alGet l k with
  | none => rw [hg] at h; cases h
  | some w =>
      rw [hg] at h
      injection h with h
      subst h
      exact (ser_pdict_iff l).mp hd (k, w) (alGet_mem l k w hg)

theorem ser_pdSet (d : PyVal) (k : String) (v d' : PyVal)
    (hd : Ser d) (hv : Ser v) (h : pdSet d k v = Except.ok d') : Ser d' := by
  cases d with
  | pnone => cases h
  | pstr s => cases h
  | pint n => cases h
  | pfloat x => cases h
  | pbytes s => cases h
  | pmulti xs => cases h
  | pds x => cases h
  | plist xs => cases h
  | pdict l => ?_
  have he : pdSet (.pdict l) k v = .ok (.pdict (alSet l k v)) := rfl
  rw [he] at h
  injection h with h
  subst h
  exact ser_alSet l k v hd hv

theorem ser_tagMap (dcm : Dataset) (tags : List String)
    (hraw : ∀ kv ∈ dcm.elems, rawOk kv.2 = true) :
    Ser (.pdict (tags.map (fun s => (s, get_tag dcm s)))) := by
  rw [ser_pdict_iff]
  intro kv hkv
  rcases List.mem_map.mp hkv with ⟨t, _, rfl⟩
  exact ser_get_tag dcm t hraw

theorem ser_tagMapFile (dcm : Dataset) (tags : List String) (fn : String)
    (hraw : ∀ kv ∈ dcm.elems, rawOk kv.2 = true) :
    Ser (.pdict (tags.map (fun s => (s, get_tag dcm s)) ++
      [("Filename", .pstr fn)])) := by
  rw [ser_pdict_iff]
  intro kv hkv
  rcases List.mem_append.mp hkv with hm | hm
  · rcases List.mem_map.mp hm with ⟨t, _, rfl⟩
    exact ser_get_tag dcm t hraw
  · simp only [List.mem_singleton] at hm
    subst hm
    exact rfl

theorem ser_processTail (root : String) (D D' : CMRDir) (fe : FileEntry)
    (dcm : Dataset) (su se : String) (dd : PyVal)
    (hraw : ∀ kv ∈ dcm.elems, rawOk kv.2 = true)
    (hdd : Ser dd)
    (h : CMRDir.processTail root D fe dcm su se dd = .ok D') :
    ∃ ddF, D' = { D with dicomDir := ddF } ∧ Ser ddF := by
  unfold CMRDir.processTail at h
  rw [exceptBind_ok_iff] at h
  obtain ⟨sop, hsop, h⟩ := h
  rw [exceptBind_ok_iff] at h
  obtain ⟨sd2, hsd2, h⟩ := h
  have hserSD2 : Ser sd2 := ser_pdGet _ _ _ hdd hsd2
  rw [exceptBind_ok_iff] at h
  obtain ⟨serD, hserD, h⟩ := h
  have hserSe : Ser serD := ser_pdGet _ _ _ hserSD2 hserD
  rw [exceptBind_ok_iff] at h
  obtain ⟨serD', hserD', h⟩ := h
  have hserSe' : Ser serD' :=
    ser_pdSet _ _ _ _ hserSe (ser_tagMapFile dcm CMRDir.INSTANCE_TAGS _ hraw) hserD'
  rw [exceptBind_ok_iff] at h
  obtain ⟨sd3, hsd3, h⟩ := h
  have hserSD3 : Ser sd3 := ser_pdSet _ _ _ _ hserSD2 hserSe' hsd3
  rw [exceptBind_ok_iff] at h
  obtain ⟨ddF, hddF, h⟩ := h
  have hserF : Ser ddF := ser_pdSet _ _ _ _ hdd hserSD3 hddF
  injection h with h
  exact ⟨ddF, h.symm, hserF⟩

theorem ser_processRest (root : String) (D D' : CMRDir) (fe : FileEntry)
    (dcm : Dataset) (su : String) (dd : PyVal)
    (hraw : ∀ kv ∈ dcm.elems, rawOk kv.2 = true)
    (hdd : Ser dd)
    (h : CMRDir.processRest root D fe dcm su dd = .ok D') :
    ∃ ddF, D' = { D with dicomDir := ddF } ∧ Ser ddF := by
  unfold CMRDir.processRest at h
  rw [exceptBind_ok_iff] at h
  obtain ⟨se, hse, h⟩ := h
  rw [exceptBind_ok_iff] at h
  obtain ⟨studyDict, hsd, h⟩ := h
  have hserSD : Ser studyDict := ser_pdGet _ _ _ hdd hsd
  rw [exceptBind_ok_iff] at h
  obtain ⟨memSe, hmemSe, h⟩ := h
  cases memSe with
  | true =>
      simp only [if_true] at h
      exact ser_processTail root D D' fe dcm su se dd hraw hdd h
  | false =>
      simp only [Bool.false_eq_true, if_false] at h
      rw [exceptBind_ok_iff] at h
      obtain ⟨studyDict', hsd', h⟩ := h
      have hserSD' : Ser studyDict' :=
        ser_pdSet _ _ _ _ hserSD (ser_tagMap dcm CMRDir.SERIES_TAGS hraw) hsd'
      rw [exceptBind_ok_iff] at h
      obtain ⟨dd', hdd', h⟩ := h
      have hser' : Ser dd' := ser_pdSet _ _ _ _ hdd hserSD' hdd'
      exact ser_processTail root D D' fe dcm su se dd' hraw hser' h

theorem ser_processFile (root : String) (D D' : CMRDir) (fe : FileEntry)
    (hraw : ∀ kv ∈ fe.parsed.elems, rawOk kv.2 = true)
    (hD : Ser D.dicomDir)
    (h : CMRDir.processFile root D fe = .ok D') :
    ∃ dd, D' = { D with dicomDir := dd } ∧ Ser dd := by
  unfold CMRDir.processFile at h
  cases hread : read_dicom fe.parsed with
  | none =>
      rw [hread] at h
      injection h with h
      subst h
      exact ⟨D.dicomDir, rfl, hD⟩
  | some dcm =>
      rw [hread] at h
      have hraw' : ∀ kv ∈ dcm.elems, rawOk kv.2 = true := by
        rw [read_dicom_elems_eq fe.parsed dcm hread]
        exact hraw
      rw [exceptBind_ok_iff] at h
      obtain ⟨su, hsu, h⟩ := h
      rw [exceptBind_ok_iff] at h
      obtain ⟨mem, hmem, h⟩ := h
      cases mem with
      | true =>
          simp only [if_true] at h
          exact ser_processRest root D D' fe dcm su D.dicomDir hraw' hD h
      | false =>
          simp only [Bool.false_eq_true, if_false] at h
          rw [exceptBind_ok_iff] at h
          obtain ⟨dd', hdd', h⟩ := h
          have hser' : Ser dd' :=
            ser_pdSet _ _ _ _ hD (ser_tagMap dcm CMRDir.STUDY_TAGS hraw') hdd'
          exact ser_processRest root D D' fe dcm su dd' hraw' hser' h

theorem ser_foldl (root : String) (files : List FileEntry) :
    ∀ (D D' : CMRDir),
    (∀ fe ∈ files, ∀ kv ∈ fe.parsed.elems, rawOk kv.2 = true) →
    Ser D.source → Ser D.studyName → Ser D.dicomDir →
    files.foldlM (CMRDir.processFile root) D = .ok D' →
    Ser D'.source ∧ Ser D'.studyName ∧ Ser D'.dicomDir := by
  induction files with
  | nil =>
      intro D D' _ h1 h2 h3 h
      injection h with h
      subst h
      exact ⟨h1, h2, h3⟩
  | cons fe rest ih =>
      intro D D' hraw h1 h2 h3 h
      rw [List.foldlM_cons, exceptBind_ok_iff] at h
      obtain ⟨D1, hD1, h⟩ := h
      obtain ⟨dd, hsh, hser⟩ :=
        ser_processFile root D D1 fe (hraw fe (List.mem_cons_self _ _)) h3 hD1
      subst hsh
      exact ih { D with dicomDir := dd } D'
        (fun fe' hfe' => hraw fe' (List.mem_cons.mpr (Or.inr hfe'))) h1 h2 hser h

theorem save_isSome_of_ser (D : CMRDir)
    (h1 : Ser D.source) (h2 : Ser D.studyName) (h3 : Ser D.dicomDir) :
    ∃ j, CMRDir.save D = some j := by
  unfold Ser at h1 h2 h3
  unfold CMRDir.save
  cases hs : encodeJ D.source with
  | none => rw [hs] at h1; simp at h1
  | some s =>
      cases hn : encodeJ D.studyName with
      | none => rw [hn] at h2; simp at h2
      | some n =>
          cases hd : encodeJ D.dicomDir with
          | none => rw [hd] at h3; simp at h3
          | some d =>
              exact ⟨.jobj [("source", s), ("studyName", n), ("dicomDir", d)], rfl⟩

theorem cmrdir_from_file_save (D : CMRDir) (j : JVal)
    (h : CMRDir.save D = some j) : CMRDir.from_file j = .ok D := by
  unfold CMRDir.save at h
  cases hs : encodeJ D.source with
  | none => rw [hs] at h; cases h
  | some s =>
      cases hn : encodeJ D.studyName with
      | none => rw [hs, hn] at h; cases h
      | some n =>
          cases hd : encodeJ D.dicomDir with
          | none => rw [hs, hn, hd] at h; cases h
          | some d =>
              rw [hs, hn, hd] at h
              injection h with h
              subst h
              have he : CMRDir.from_file
                  (.jobj [("source", s), ("studyName", n), ("dicomDir", d)]) =
                  .ok { source := decodeJ s, studyName := decodeJ n,
                        dicomDir := decodeJ d } := rfl
              rw [he, decodeJ_encodeJ D.source s hs, decodeJ_encodeJ D.studyName n hn,
                  decodeJ_encodeJ D.dicomDir d hd]

/-- A concrete recognizable file for exercising the save/restore round trip:
study 1.2.3, series 1.2.3.4, SOP instance 1.2.3.4.5. -/
def rtFile : FileEntry :=
  ⟨"/r/a.dcm",
   { fileMeta := [],
     elems := [("StudyInstanceUID", .pstr "1.2.3"),
               ("SeriesInstanceUID", .pstr "1.2.3.4"),
               ("SOPInstanceUID", .pstr "1.2.3.4.5")] }⟩

/-- C3 (amended).  The `CMRDir` snapshot round trip is exact: (1) whenever
`CMRDir.save` produces a snapshot, `CMRDir.from_file` restores a catalog
deep-equal to the original, preserving every stored tag value and the full
Study → Series → Instance tree; (2) every catalog produced by a successful
`CMRDir.from_folder` scan of files whose raw element values are scalar-like
(as `pydicom` data elements are) does serialize successfully, and its
snapshot restores deep-equally.  However (3) the `CMRStudy.from_file`
restore path named by the claim never returns a restored catalog: it
ignores the file and returns the class object itself. -/
theorem save_restore_round_trip :
    (∀ (D : CMRDir) (j : JVal), CMRDir.save D = some j →
       CMRDir.from_file j = .ok D) ∧
    (∀ (root : String) (sn : Option String) (quiet : Bool)
       (files : List FileEntry) (D : CMRDir),
       (∀ fe ∈ files, ∀ kv ∈ fe.parsed.elems, rawOk kv.2 = true) →
       CMRDir.from_folder root sn quiet files = .ok D →
       ∃ j, CMRDir.save D = some j ∧ CMRDir.from_file j = .ok D) ∧
    (∀ (fileSystem : List (String × JVal)) (file_name : String) (s : CMRStudy),
       CMRStudy.from_file fileSystem file_name ≠ .restored s) := by
  refine ⟨cmrdir_from_file_save, ?_, ?_⟩
  · intro root sn quiet files D hraw h
    unfold CMRDir.from_folder at h
    simp only [] at h
    obtain ⟨h1, h2, h3⟩ := ser_foldl root files ⟨.pstr root, .pstr (sn.getD (pyBasename root)), .pdict []⟩ D hraw rfl rfl rfl h
    obtain ⟨j, hj⟩ := save_isSome_of_ser D h1 h2 h3
    exact ⟨j, hj, cmrdir_from_file_save D j hj⟩
  · intro fileSystem file_name s h
    exact CMRStudyFromFile.noConfusion h

/-- C3 witness: scanning the concrete one-file folder succeeds, its raw
element values are scalar-like, and the resulting catalog saves to a
snapshot that restores deep-equally. -/
theorem save_restore_round_trip_witness :
    ∃ D : CMRDir, CMRDir.from_folder "/r" none false [rtFile] = .ok D ∧
      ∃ j, CMRDir.save D = some j ∧ CMRDir.from_file j = .ok D := by
  obtain ⟨D, hD⟩ : ∃ D, CMRDir.from_folder "/r" none false [rtFile] = .ok D :=
    ⟨_, rfl⟩
  exact ⟨D, hD,
    save_restore_round_trip.2.1 "/r" none false [rtFile] D (by decide) hD⟩

/-- C3 counterexample.  The restore path `CMRStudy.from_file` named by the
claim does not perform a round trip at all: on a concrete file system
holding a snapshot it returns the class object, not a restored catalog. -/
theorem cmrstudy_restore_not_roundtrip_counterexample :
    CMRStudy.from_file [("snap.json", .jobj [])] "snap.json" =
      .classObject ∧
    ∀ s : CMRStudy, CMRStudy.from_file [("snap.json", .jobj [])] "snap.json" ≠
      .restored s :=
  ⟨rfl, fun s h => CMRStudyFromFile.noConfusion h⟩
